import Mathlib

set_option maxRecDepth 8192

/-
  Verification of the emotion-analyzer pipeline.

  Shallow embedding of the repository's Python modules:
    - modules/semantic_analysis.py   (sentiment scorer)
    - modules/context_judgment.py    (context classifier)
    - modules/emotion_mapping.py     (emotion composer)
    - modules/context_learning.py    (adaptive learner)
    - modules/integration.py         (orchestrator response fields)

  Python floats are embedded as exact rationals (ℚ); Python strings as
  `List Char`; Python dicts as insertion-ordered association lists.
-/

namespace EmoCalc

/-! ## Generic string helpers (Python `str` operations on `List Char`) -/

/-- The apostrophe character (written via its code point). -/
def apo : Char := Char.ofNat 39

/-- Build the word `a ++ "'" ++ b`, used for contractions in the lexicons. -/
def wApo (a b : String) : List Char := a.toList ++ apo :: b.toList

/-- Python `str.lower()` on a character list. -/
def toLowerL (s : List Char) : List Char := s.map Char.toLower

/-- Python `needle in haystack` substring test. -/
def containsSub (hay pat : List Char) : Bool :=
  match hay with
  | [] => pat.isEmpty
  | _ :: t => pat.isPrefixOf hay || containsSub t pat

/-- Python `str.endswith`. -/
def endsWithL (s suffix : List Char) : Bool := suffix.isSuffixOf s

/-- Auxiliary for `pySplit`: accumulates the current word (reversed). -/
def pySplitAux : List Char → List Char → List (List Char)
  | [], acc => if acc.isEmpty then [] else [acc.reverse]
  | c :: cs, acc =>
    if c.isWhitespace then
      if acc.isEmpty then pySplitAux cs [] else acc.reverse :: pySplitAux cs []
    else pySplitAux cs (c :: acc)

/-- Python `str.split()` with no argument: split on whitespace runs,
discarding empty pieces. -/
def pySplit (s : List Char) : List (List Char) := pySplitAux s []

/-- A character list containing no alphabetic character. -/
def letterFree (s : List Char) : Bool := s.all fun c => !c.isAlpha

/-! ## Generic distributions (Python `Dict[str, float]` as ordered assoc list) -/

/-- An emotion distribution: insertion-ordered mapping name ↦ weight. -/
abbrev Dist := List (String × ℚ)

/-- Sum of the values (`sum(d.values())`). -/
def sumVals (d : Dist) : ℚ := (d.map Prod.snd).sum

/-- Python `d.get(k, 0.0)`. -/
def getD (d : Dist) (k : String) : ℚ :=
  match d.find? (fun kv => kv.1 == k) with
  | some kv => kv.2
  | none => 0

/-- The key list of a distribution. -/
def keysOf (d : Dist) : List String := d.map Prod.fst

/-- Python `d[k] += x` where `k` is known to be a key of `d`
(all call sites in the source only touch existing keys; a missing key
is left untouched rather than raising `KeyError`). -/
def updAdd (d : Dist) (k : String) (x : ℚ) : Dist :=
  d.map fun kv => if kv.1 == k then (kv.1, kv.2 + x) else kv

/-- Python `d[k] *= m` on an existing key (missing key untouched). -/
def updMul (d : Dist) (k : String) (m : ℚ) : Dist :=
  d.map fun kv => if kv.1 == k then (kv.1, kv.2 * m) else kv

/-- Python `d[k] = x`: overwrite an existing key in place, else append. -/
def setKV (d : Dist) (k : String) (x : ℚ) : Dist :=
  if (d.find? (fun kv => kv.1 == k)).isSome then
    d.map fun kv => if kv.1 == k then (kv.1, x) else kv
  else d ++ [(k, x)]

/-- `total = sum(d.values()); if total > 0: d = {k: v/total}` — the
normalization step shared by the composer and the learner. -/
def normalizeIfPos (d : Dist) : Dist :=
  if 0 < sumVals d then d.map (fun kv => (kv.1, kv.2 / sumVals d)) else d

/-- `{k: v for k, v in d.items() if v >= θ}` — the low-weight filter. -/
def filterGE (θ : ℚ) (d : Dist) : Dist := d.filter fun kv => θ ≤ kv.2

/-- Stable insertion used to model Python's stable `sorted(..., key, reverse=True)`:
the new element goes after every element whose key is ≥ its own. -/
def insertByDesc (key : α → ℚ) (x : α) : List α → List α
  | [] => [x]
  | y :: ys => if key x ≤ key y then y :: insertByDesc key x ys else x :: y :: ys

/-- Python `sorted(l, key=key, reverse=True)` (stable, descending). -/
def sortDescBy (key : α → ℚ) (l : List α) : List α :=
  l.foldl (fun acc x => insertByDesc key x acc) []

/-! ## Sentiment scorer (modules/semantic_analysis.py)

A spaCy token is embedded by the attributes the scorer reads: surface
text, lemma, trailing whitespace (so that `doc.text` is the concatenation
of `text ++ ws` over the tokens), and the punctuation/space flags. -/

structure Token where
  text : List Char
  lemma_ : List Char
  ws : List Char
  is_punct : Bool
  is_space : Bool
deriving DecidableEq

/-- `doc.text`: concatenation of each token's text with trailing whitespace. -/
def docText (doc : List Token) : List Char := (doc.map fun t => t.text ++ t.ws).flatten

/-- The three lexicon families of `SENTIMENT_LEXICON`, in iteration order. -/
inductive SentType | pos | neg | hos
deriving DecidableEq

/-- `SENTIMENT_LEXICON["positive"]`. -/
def positiveLexicon : List (List Char × ℚ) :=
  [("good".toList, 6/10), ("great".toList, 7/10), ("excellent".toList, 8/10),
   ("happy".toList, 7/10), ("love".toList, 9/10), ("like".toList, 5/10),
   ("nice".toList, 6/10), ("amazing".toList, 8/10), ("wonderful".toList, 8/10),
   ("joy".toList, 7/10), ("beautiful".toList, 7/10), ("fantastic".toList, 8/10),
   ("brilliant".toList, 7/10), ("awesome".toList, 8/10), ("enjoy".toList, 6/10),
   ("glad".toList, 6/10), ("pleased".toList, 5/10), ("delight".toList, 7/10),
   ("fabulous".toList, 7/10), ("superb".toList, 8/10), ("terrific".toList, 7/10),
   ("outstanding".toList, 7/10), ("perfect".toList, 8/10), ("positive".toList, 6/10),
   ("exciting".toList, 6/10), ("fun".toList, 5/10), ("lovely".toList, 6/10),
   ("pleasant".toList, 5/10)]

/-- `SENTIMENT_LEXICON["negative"]`. -/
def negativeLexicon : List (List Char × ℚ) :=
  [("bad".toList, 6/10), ("terrible".toList, 8/10), ("awful".toList, 8/10),
   ("sad".toList, 6/10), ("hate".toList, 9/10), ("dislike".toList, 6/10),
   ("horrible".toList, 8/10), ("disappointing".toList, 6/10), ("poor".toList, 5/10),
   ("ugly".toList, 6/10), ("stupid".toList, 7/10), ("annoying".toList, 6/10),
   ("unhappy".toList, 7/10), ("angry".toList, 7/10), ("depressed".toList, 7/10),
   ("frustrated".toList, 6/10), ("upset".toList, 6/10), ("furious".toList, 8/10),
   ("disgusting".toList, 8/10), ("pathetic".toList, 7/10), ("offensive".toList, 7/10),
   ("worthless".toList, 7/10), ("unpleasant".toList, 6/10), ("painful".toList, 7/10),
   ("miserable".toList, 7/10), ("rubbish".toList, 6/10)]

/-- `SENTIMENT_LEXICON["hostile"]`. -/
def hostileLexicon : List (List Char × ℚ) :=
  [("kill".toList, 9/10), ("hurt".toList, 7/10), ("destroy".toList, 8/10),
   ("hate".toList, 7/10), ("attack".toList, 8/10), ("fight".toList, 6/10),
   ("die".toList, 8/10), ("murder".toList, 9/10), ("threat".toList, 7/10),
   ("harm".toList, 7/10), ("violent".toList, 7/10), ("slap".toList, 6/10),
   ("punch".toList, 7/10), ("kick".toList, 6/10), ("shoot".toList, 8/10),
   ("eliminate".toList, 6/10), ("torture".toList, 8/10), ("hit".toList, 6/10),
   ("crush".toList, 7/10), ("annihilate".toList, 8/10), ("stab".toList, 8/10),
   ("poison".toList, 8/10), ("assault".toList, 8/10), ("abuse".toList, 7/10),
   ("strangle".toList, 8/10)]

/-- `SENTIMENT_LEXICON.items()` in dict iteration order. -/
def sentLexicons : List (SentType × List (List Char × ℚ)) :=
  [(.pos, positiveLexicon), (.neg, negativeLexicon), (.hos, hostileLexicon)]

/-- `INTENSIFIERS`. -/
def intensifiers : List (List Char × ℚ) :=
  [("very".toList, 15/10), ("extremely".toList, 18/10), ("really".toList, 13/10),
   ("incredibly".toList, 16/10), ("absolutely".toList, 17/10),
   ("definitely".toList, 14/10), ("totally".toList, 15/10), ("so".toList, 13/10)]

/-- `DIMINISHERS`. -/
def diminishers : List (List Char × ℚ) :=
  [("slightly".toList, 5/10), ("somewhat".toList, 7/10), ("a bit".toList, 6/10),
   ("kind of".toList, 7/10), ("sort of".toList, 7/10), ("barely".toList, 3/10),
   ("hardly".toList, 3/10), ("almost".toList, 8/10)]

/-- The `NEGATIONS` set. -/
def negationsList : List (List Char) :=
  ["not".toList, "no".toList, "never".toList, "none".toList, "nothing".toList,
   "neither".toList, "nor".toList, "nowhere".toList,
   wApo "isn" "t", wApo "aren" "t", wApo "wasn" "t", wApo "weren" "t",
   wApo "haven" "t", wApo "hasn" "t", wApo "hadn" "t",
   wApo "don" "t", wApo "doesn" "t", wApo "didn" "t", wApo "won" "t",
   wApo "wouldn" "t", wApo "can" "t", wApo "couldn" "t",
   wApo "shouldn" "t", wApo "mustn" "t", "without".toList, "nobody".toList,
   wApo "n" "t", "nt".toList]

/-- Dictionary lookup in a weighted lexicon (`word in lexicon` + `lexicon[word]`). -/
def lexLookup (lex : List (List Char × ℚ)) (w : List Char) : Option ℚ :=
  (lex.find? fun kv => kv.1 == w).map Prod.snd

/-- The `SentimentScore` record (the five keys of `sentiment_scores`). -/
structure Scores where
  positive : ℚ
  negative : ℚ
  neutral : ℚ
  hostility : ℚ
  intensity : ℚ
deriving DecidableEq

/-- `for key in scores: scores[key] = max(0.0, scores[key])` — the clamp at the
end of `process_sentiment_word`. -/
def clampNonneg (s : Scores) : Scores :=
  ⟨max 0 s.positive, max 0 s.negative, max 0 s.neutral, max 0 s.hostility,
   max 0 s.intensity⟩

/-- `for key in sentiment_scores: ... = min(1.0, ...)` — the final upper clamp. -/
def clampUB1 (s : Scores) : Scores :=
  ⟨min 1 s.positive, min 1 s.negative, min 1 s.neutral, min 1 s.hostility,
   min 1 s.intensity⟩

/-- The per-lexicon-hit update inside `process_sentiment_word` (lines 312-324):
negation flips/dampens, otherwise the weight is added to the mapped key. -/
def applyLex (t : SentType) (w : ℚ) (negated : Bool) (s : Scores) : Scores :=
  if negated then
    match t with
    | .pos => { s with negative := s.negative + w }
    | .neg => { s with positive := s.positive + w, negative := s.negative - w * (5/10) }
    | .hos => { s with hostility := s.hostility + w * (3/10) }
  else
    match t with
    | .pos => { s with positive := s.positive + w }
    | .neg => { s with negative := s.negative + w }
    | .hos => { s with hostility := s.hostility + w }

/-- `process_sentiment_word`: apply every lexicon hit for `word` (weight scaled
by the resolved modifier), then clamp every field non-negative.  The Python
function receives the modifier through the `intensifier`/`diminisher`
arguments; `modifier` here is the resolved multiplier (1.0 when neither is
passed). -/
def process_sentiment_word (word : List Char) (negated : Bool) (modifier : ℚ)
    (s : Scores) : Scores :=
  clampNonneg <| sentLexicons.foldl (fun s tl =>
    match lexLookup tl.2 word with
    | some wt => applyLex tl.1 (wt * modifier) negated s
    | none => s) s

/-- The "step 4" negation rule of the scorer: the negated branch of
`process_sentiment_word` together with its closing non-negative clamp. -/
def step4NegationRule (t : SentType) (w : ℚ) (s : Scores) : Scores :=
  clampNonneg (applyLex t w true s)

/-- The 16 phrases scanned for `has_negation_phrases` (lines 168-172). -/
def negationPhrases : List (List Char) :=
  [wApo "don" "t", wApo "doesn" "t", wApo "didn" "t", wApo "isn" "t",
   wApo "aren" "t", wApo "wasn" "t", wApo "weren" "t", wApo "haven" "t",
   wApo "hasn" "t", wApo "hadn" "t", wApo "can" "t", wApo "couldn" "t",
   wApo "wouldn" "t", wApo "shouldn" "t", wApo "won" "t", "not".toList]

/-- `has_negation_phrases`. -/
def hasNegationPhrases (textLower : List Char) : Bool :=
  negationPhrases.any (containsSub textLower)

/-- The negation-phrase prefixes of the correction pass (lines 250-251),
each already carrying its separating space. -/
def negatedPatternPrefixes : List (List Char) :=
  [wApo "don" "t ", wApo "doesn" "t ", wApo "didn" "t ", wApo "isn" "t ",
   "not ".toList, "never ".toList]

/-- The per-match update of the phrase-negation correction pass
(lines 255-266). -/
def negatedPatternUpdate (t : SentType) (w : ℚ) (s : Scores) : Scores :=
  match t with
  | .neg => { s with positive := s.positive + w,
                     negative := max 0 (s.negative - w * (7/10)) }
  | .pos => { s with negative := s.negative + w * (7/10),
                     positive := max 0 (s.positive - w * (5/10)) }
  | .hos => { s with hostility := max 0 (s.hostility - w * (6/10)) }

/-- The full phrase-negation correction pass (lines 247-266): every
(negation-prefix, lexicon-word) pattern found as a substring fires once. -/
def phraseCorrectionPass (textLower : List Char) (s : Scores) : Scores :=
  sentLexicons.foldl (fun s tl =>
    tl.2.foldl (fun s kv =>
      negatedPatternPrefixes.foldl (fun s pre =>
        if containsSub textLower (pre ++ kv.1) then negatedPatternUpdate tl.1 kv.2 s
        else s) s) s) s

/-- The mutable state of the scorer's main loop. -/
structure LoopSt where
  scores : Scores
  negActive : Bool
  negWindow : ℕ
  skips : List ℕ
deriving DecidableEq

/-- `negation_window_size = 4`. -/
def negationWindowSize : ℕ := 4

/-- The negation-trigger test of lines 180-182. -/
def isNegationTrigger (doc : List Token) (i : ℕ) (tok : Token) : Bool :=
  let lowerTok := toLowerL tok.text
  negationsList.contains lowerTok ||
  (endsWithL lowerTok (wApo "n" "t") || endsWithL lowerTok "nt".toList) ||
  (decide (0 < i) &&
    match doc.get? (i - 1) with
    | some p => negationsList.contains (toLowerL p.text ++ lowerTok)
    | none => false)

/-- The look-back of the special handling block (lines 199-203): scan the
previous (up to) two tokens for a negation word or an `n't` contraction. -/
def lookbackNegation (doc : List Token) (i : ℕ) : Bool :=
  ((List.range i).filter fun j => i - 2 ≤ j).any fun j =>
    match doc.get? j with
    | some p =>
      negationsList.contains (toLowerL p.text) ||
      endsWithL (toLowerL p.text) (wApo "n" "t")
    | none => false

/-- One iteration of the scorer's main loop (lines 175-244), for index `i`. -/
def loopStep (doc : List Token) (hasNeg : Bool) (i : ℕ) (st : LoopSt) : LoopSt :=
  match doc.get? i with
  | none => st
  | some tok =>
    if st.skips.contains i then st
    else if isNegationTrigger doc i tok then
      { st with negActive := true, negWindow := 0 }
    else
      let st :=
        if st.negActive then
          let w := st.negWindow + 1
          if negationWindowSize ≤ w || tok.is_punct then
            { st with negActive := false, negWindow := w }
          else { st with negWindow := w }
        else st
      let word := toLowerL tok.lemma_
      let st :=
        if hasNeg && !st.negActive && lookbackNegation doc i then
          { st with negActive := true }
        else st
      match doc.get? (i + 1) with
      | some nxt =>
        let bigram := word ++ ' ' :: toLowerL nxt.lemma_
        match lexLookup diminishers bigram with
        | some dv =>
          let st := { st with skips := (i + 1) :: st.skips }
          match doc.get? (i + 2) with
          | some n2 =>
            { st with
              scores := process_sentiment_word (toLowerL n2.lemma_) st.negActive dv st.scores,
              skips := (i + 2) :: st.skips }
          | none => st
        | none =>
          match lexLookup intensifiers bigram with
          | some iv =>
            let st := { st with skips := (i + 1) :: st.skips }
            match doc.get? (i + 2) with
            | some n2 =>
              { st with
                scores := process_sentiment_word (toLowerL n2.lemma_) st.negActive iv st.scores,
                skips := (i + 2) :: st.skips }
            | none => st
          | none =>
            match lexLookup intensifiers word with
            | some iv =>
              { st with
                scores := process_sentiment_word (toLowerL nxt.lemma_) st.negActive iv st.scores,
                skips := (i + 1) :: st.skips }
            | none =>
              match lexLookup diminishers word with
              | some dv =>
                { st with
                  scores := process_sentiment_word (toLowerL nxt.lemma_) st.negActive dv st.scores,
                  skips := (i + 1) :: st.skips }
              | none =>
                { st with scores := process_sentiment_word word st.negActive 1 st.scores }
      | none =>
        { st with scores := process_sentiment_word word st.negActive 1 st.scores }

/-- Run the main loop from index `i` with the given fuel (one unit per index). -/
def mainLoop (doc : List Token) (hasNeg : Bool) : ℕ → ℕ → LoopSt → LoopSt
  | 0, _, st => st
  | fuel + 1, i, st =>
    if i < doc.length then mainLoop doc hasNeg fuel (i + 1) (loopStep doc hasNeg i st)
    else st

/-- `total_words`: tokens that are neither punctuation nor space. -/
def totalWords (doc : List Token) : ℕ :=
  (doc.filter fun t => !t.is_punct && !t.is_space).length

/-- `analyze_sentiment_enhanced`: the complete sentiment scorer. -/
def analyze_sentiment_enhanced (doc : List Token) : Scores :=
  if doc.length = 0 then ⟨0, 0, 1, 0, 0⟩
  else
    let textLower := toLowerL (docText doc)
    let hasNeg := hasNegationPhrases textLower
    let final := mainLoop doc hasNeg doc.length 0 ⟨⟨0, 0, 0, 0, 0⟩, false, 0, []⟩
    let s := final.scores
    let s := if hasNeg then phraseCorrectionPass textLower s else s
    let tnn := s.positive + s.negative
    let s := { s with neutral := max 0 (1 - tnn) }
    let s := { s with intensity := min 1 (tnn + s.hostility) }
    if 0 < totalWords doc then clampUB1 s else s

/-- The C3 invariant on a returned `SentimentScore`: every field in [0, 1],
`neutral = max(0, 1 - positive - negative)` and
`intensity = min(1, positive + negative + hostility)`, stated over the
returned field values. -/
def scoreInvariant (s : Scores) : Prop :=
  (0 ≤ s.positive ∧ s.positive ≤ 1) ∧ (0 ≤ s.negative ∧ s.negative ≤ 1) ∧
  (0 ≤ s.neutral ∧ s.neutral ≤ 1) ∧ (0 ≤ s.hostility ∧ s.hostility ≤ 1) ∧
  (0 ≤ s.intensity ∧ s.intensity ≤ 1) ∧
  s.neutral = max 0 (1 - s.positive - s.negative) ∧
  s.intensity = min 1 (s.positive + s.negative + s.hostility)

/-! ## Context classifier (modules/context_judgment.py) -/

/-- A history entry as read by `determine_context`: the three sentiment keys
it inspects, absent (`none`) when the entry has no `"sentiment"` key.
Missing individual keys default to 0 via `.get(..., 0)`, so the three values
are stored directly. -/
structure HistEntry where
  sentiment : Option (ℚ × ℚ × ℚ)  -- (positive, negative, hostility)
deriving DecidableEq

/-- The metadata dict as read by `determine_context`. -/
structure Metadata where
  known_person : Option Bool
  relationship_duration : Option ℚ
deriving DecidableEq

/-- The result dict of `determine_context`.  `known_person` is present only
when metadata says `True`; `relationship_duration` is copied through. -/
structure ContextResult where
  type_ : String
  confidence : ℚ
  known_person : Bool
  relationship_duration : Option ℚ
deriving DecidableEq

/-- Count friendly/hostile indicators over the history entries (lines 61-68). -/
def countIndicators (entries : List HistEntry) : ℕ × ℕ :=
  entries.foldl
    (fun acc e =>
      match e.sentiment with
      | none => acc
      | some (p, n, h) =>
        let f := acc.1 + (if 6/10 < p then 1 else 0)
        let ho := acc.2 + (if 6/10 < n then 1 else 0)
        let ho := ho + (if 3/10 < h then 2 else 0)
        (f, ho))
    (0, 0)

/-- The explicit-relationship branch of `determine_context` (lines 37-51):
synonym-table lookup after lowercasing; an empty (falsy) string leaves the
initial unknown/0.5 pair. -/
def relSynLookup (r : List Char) : String × ℚ :=
  if r = [] then ("unknown", 5/10)
  else if toLowerL r = "friend".toList ∨ toLowerL r = "ally".toList ∨
      toLowerL r = "friendly".toList ∨ toLowerL r = "positive".toList then
    ("friend", 9/10)
  else if toLowerL r = "enemy".toList ∨ toLowerL r = "hostile".toList ∨
      toLowerL r = "negative".toList ∨ toLowerL r = "adversary".toList then
    ("enemy", 9/10)
  else if toLowerL r = "neutral".toList ∨ toLowerL r = "stranger".toList ∨
      toLowerL r = "acquaintance".toList then
    ("neutral", 8/10)
  else ("unknown", 5/10)

/-- The history branch of `determine_context` (lines 70-79). -/
def histClassify (entries : List HistEntry) : String × ℚ :=
  let fh := countIndicators entries
  if fh.2 * 2 < fh.1 then ("friend", 7/10)
  else if fh.1 < fh.2 then ("enemy", 7/10)
  else ("neutral", 6/10)

/-- `determine_context`.  `relationship = some s` with `s = []` behaves like
Python's falsy empty string; `history = none` covers both an absent and a
falsy (empty-dict) history, while `some entries` is a truthy history dict
whose `"entries"` list is `entries`. -/
def determine_context (relationship : Option (List Char))
    (history : Option (List HistEntry)) (metadata : Option Metadata) :
    ContextResult :=
  let base : String × ℚ :=
    match relationship with
    | none => ("unknown", 5/10)
    | some r => relSynLookup r
  let base :=
    match history with
    | some entries => if base.1 = "unknown" then histClassify entries else base
    | none => base
  { type_ := base.1
    confidence := base.2
    known_person := (match metadata with
      | some m => m.known_person = some true
      | none => false)
    relationship_duration := (match metadata with
      | some m => m.relationship_duration
      | none => none) }

/-- A relationship string that matches no entry of the classifier's synonym
table (the empty string, being falsy, is also unmatched). -/
def relUnmatched (r : List Char) : Prop :=
  toLowerL r ≠ "friend".toList ∧ toLowerL r ≠ "ally".toList ∧
  toLowerL r ≠ "friendly".toList ∧ toLowerL r ≠ "positive".toList ∧
  toLowerL r ≠ "enemy".toList ∧ toLowerL r ≠ "hostile".toList ∧
  toLowerL r ≠ "negative".toList ∧ toLowerL r ≠ "adversary".toList ∧
  toLowerL r ≠ "neutral".toList ∧ toLowerL r ≠ "stranger".toList ∧
  toLowerL r ≠ "acquaintance".toList

/-! ## Emotion composer (modules/emotion_mapping.py) -/

/-- `BASE_EMOTIONS` in order. -/
def BASE_EMOTIONS : List String :=
  ["Happy", "Sad", "Angry", "Afraid", "Surprised", "Disgusted", "Curious",
   "Excited", "Calm", "Confused", "Amused", "Proud", "Grateful", "Loving",
   "Nervous"]

/-- `EMOTION_PATTERNS`. -/
def EMOTION_PATTERNS : List (String × List (List Char)) :=
  [("Happy", ["thank you".toList, "grateful".toList, "appreciate".toList,
              "congratulations".toList, "well done".toList, "good job".toList]),
   ("Sad", ["miss you".toList, "lost".toList, "alone".toList, "sorry for".toList,
            "condolences".toList, "sympathy".toList]),
   ("Afraid", ["help me".toList, "save me".toList, "danger".toList,
               "scared".toList, "afraid of".toList, "worried about".toList]),
   ("Curious", ["how do".toList, "why does".toList, "what if".toList,
                "tell me about".toList, "explain".toList, "curious about".toList]),
   ("Confused", [wApo "don" "t understand", "confused about".toList,
                 "unclear".toList, "not sure".toList, "perplexed".toList]),
   ("Amused", ["funny".toList, "joke".toList, "lol".toList, "haha".toList,
               "lmao".toList, "hilarious".toList]),
   ("Nervous", ["nervous about".toList, "anxious".toList, "worried".toList,
                "stress".toList, "concerned".toList])]

/-- `EMOTION_PHRASES` after Python dict-literal duplicate resolution: the
key `"hate you"` appears twice in the literal, so the later value
`("Angry", 0.7, "friend")` wins, at the first occurrence's position. -/
def EMOTION_PHRASES : List (List Char × (String × ℚ × Option String)) :=
  [("miss you".toList, ("Sad", 7/10, none)),
   ("hate you".toList, ("Angry", 7/10, some "friend")),
   ("love you".toList, ("Happy", 8/10, none)),
   ("good job".toList, ("Proud", 6/10, none)),
   ("thank you".toList, ("Grateful", 7/10, none)),
   ("so excited".toList, ("Excited", 8/10, none)),
   ("feel sad".toList, ("Sad", 7/10, none)),
   ("just kidding".toList, ("Amused", 6/10, none)),
   ("very happy".toList, ("Happy", 8/10, none)),
   ("totally confused".toList, ("Confused", 8/10, none))]

/-- `CONTEXT_WEIGHTS`. -/
def CONTEXT_WEIGHTS : List (String × List (String × ℚ)) :=
  [("friend", [("Happy", 13/10), ("Excited", 12/10), ("Amused", 14/10),
               ("Loving", 15/10), ("Afraid", 6/10), ("Angry", 7/10)]),
   ("enemy", [("Afraid", 15/10), ("Angry", 13/10), ("Disgusted", 12/10),
              ("Happy", 6/10), ("Loving", 3/10), ("Calm", 5/10)]),
   ("neutral", [("Curious", 13/10), ("Confused", 11/10), ("Nervous", 12/10)])]

/-- A `keyword_emotion_map` entry: a fixed list, or a function of the
context type (the source's callable entries). -/
inductive KwEffect
  | fixed (l : List (String × ℚ))
  | byCtx (f : String → List (String × ℚ))

/-- `keyword_emotion_map`. -/
def keywordEmotionMap : List (List Char × KwEffect) :=
  [("love".toList, .fixed [("Happy", 3/10), ("Loving", 4/10)]),
   ("like".toList, .fixed [("Happy", 2/10), ("Calm", 1/10)]),
   ("happy".toList, .fixed [("Happy", 4/10), ("Excited", 2/10)]),
   ("good".toList, .fixed [("Happy", 2/10), ("Calm", 1/10)]),
   ("great".toList, .fixed [("Happy", 3/10), ("Excited", 2/10)]),
   ("thank".toList, .fixed [("Happy", 2/10), ("Grateful", 4/10)]),
   ("appreciate".toList, .fixed [("Grateful", 5/10), ("Happy", 2/10)]),
   ("excited".toList, .fixed [("Excited", 5/10), ("Happy", 2/10)]),
   ("glad".toList, .fixed [("Happy", 3/10), ("Grateful", 1/10)]),
   ("wonderful".toList, .fixed [("Happy", 4/10), ("Excited", 2/10)]),
   ("hate".toList, .fixed [("Angry", 3/10), ("Disgusted", 3/10)]),
   ("angry".toList, .fixed [("Angry", 5/10), ("Disgusted", 1/10)]),
   ("sad".toList, .fixed [("Sad", 5/10), ("Calm", 1/10)]),
   ("upset".toList, .fixed [("Sad", 3/10), ("Angry", 2/10)]),
   ("annoyed".toList, .fixed [("Angry", 3/10), ("Disgusted", 1/10)]),
   ("worried".toList, .fixed [("Afraid", 3/10), ("Nervous", 3/10)]),
   ("kill".toList, .byCtx fun ctx =>
      if ctx ≠ "friend" then [("Afraid", 5/10), ("Angry", 3/10)]
      else [("Surprised", 4/10), ("Confused", 2/10), ("Amused", 2/10)]),
   ("hurt".toList, .byCtx fun ctx =>
      if ctx ≠ "friend" then [("Afraid", 4/10), ("Sad", 2/10)]
      else [("Surprised", 3/10), ("Confused", 2/10)]),
   ("die".toList, .byCtx fun ctx =>
      if ctx ≠ "friend" then [("Sad", 4/10), ("Afraid", 3/10)]
      else [("Surprised", 3/10), ("Sad", 2/10)]),
   ("attack".toList, .byCtx fun ctx =>
      if ctx ≠ "friend" then [("Afraid", 4/10), ("Angry", 3/10)]
      else [("Surprised", 3/10), ("Confused", 2/10)]),
   ("why".toList, .fixed [("Curious", 4/10), ("Confused", 2/10)]),
   ("how".toList, .fixed [("Curious", 4/10), ("Confused", 1/10)]),
   ("what".toList, .fixed [("Curious", 3/10), ("Confused", 1/10)]),
   ("wonder".toList, .fixed [("Curious", 5/10), ("Excited", 1/10)]),
   ("surprise".toList, .fixed [("Surprised", 5/10), ("Excited", 2/10)]),
   ("unexpected".toList, .fixed [("Surprised", 4/10), ("Confused", 2/10)]),
   ("amazing".toList, .fixed [("Surprised", 3/10), ("Excited", 3/10), ("Happy", 2/10)]),
   ("shocking".toList, .fixed [("Surprised", 5/10), ("Confused", 2/10)]),
   ("confused".toList, .fixed [("Confused", 5/10), ("Curious", 2/10)]),
   ("understand".toList, .fixed [("Confused", 2/10), ("Curious", 2/10)])]

/-- The linguistic features read by `map_to_emotions` (the remaining feature
keys are never consulted by the composer). -/
structure Features where
  is_question : Bool
  exclamatory : Bool
  imperative : Bool
  key_words : List (List Char)
deriving DecidableEq

/-- Phrase-trigger stage of `map_to_emotions` (lines 112-117). -/
def phraseStage (textLower : List Char) (ctxType : String) (conf : ℚ)
    (d : Dist) : Dist :=
  EMOTION_PHRASES.foldl
    (fun d p =>
      if containsSub textLower p.1 then
        match p.2.2.2 with
        | some c => if c ≠ ctxType then d else updAdd d p.2.1 (p.2.2.1 * conf)
        | none => updAdd d p.2.1 (p.2.2.1 * conf)
      else d) d

/-- Pattern-trigger stage (lines 120-123). -/
def patternStage (textLower : List Char) (conf : ℚ) (d : Dist) : Dist :=
  EMOTION_PATTERNS.foldl
    (fun d ep =>
      ep.2.foldl
        (fun d pat => if containsSub textLower pat then updAdd d ep.1 (4/10 * conf) else d)
        d) d

/-- Sentiment-to-emotion stage (lines 128-177). -/
def sentimentStage (senti : Scores) (ctxType : String) (conf : ℚ) (d : Dist) : Dist :=
  let d :=
    if 0 < senti.positive then
      let p := senti.positive
      updAdd (updAdd (updAdd (updAdd (updAdd (updAdd d
        "Happy" (p * (5/10))) "Excited" (p * (25/100))) "Calm" (p * (15/100)))
        "Loving" (p * (2/10))) "Proud" (p * (15/100))) "Grateful" (p * (15/100))
    else d
  let d :=
    if 0 < senti.negative then
      let n := senti.negative
      updAdd (updAdd (updAdd (updAdd d
        "Sad" (n * (4/10))) "Angry" (n * (3/10))) "Disgusted" (n * (2/10)))
        "Nervous" (n * (2/10))
    else d
  if 0 < senti.hostility then
    let h := senti.hostility
    if ctxType = "friend" then
      let cf := max (2/10) (1 - conf)
      let d := updAdd (updAdd (updAdd (updAdd d
        "Surprised" (h * (4/10))) "Curious" (h * (3/10))) "Excited" (h * (2/10)))
        "Amused" (h * (3/10))
      if 7/10 < h then updAdd (updAdd d "Confused" (h * (3/10))) "Afraid" (h * cf)
      else d
    else if ctxType = "enemy" then
      let d := updAdd (updAdd (updAdd d
        "Afraid" (h * (5/10))) "Angry" (h * (3/10))) "Disgusted" (h * (2/10))
      if 8/10 < conf then updAdd d "Nervous" (h * (4/10)) else d
    else
      updAdd (updAdd (updAdd (updAdd d
        "Surprised" (h * (3/10))) "Afraid" (h * (3/10))) "Curious" (h * (2/10)))
        "Confused" (h * (2/10))
  else d

/-- Feature-adjustment stage (lines 189-206). -/
def featureStage (features : Features) (ctxType : String) (d : Dist) : Dist :=
  let d :=
    if features.is_question then updAdd (updAdd d "Curious" (3/10)) "Confused" (1/10)
    else d
  let d :=
    if features.exclamatory then
      let top3 := (sortDescBy (fun kv : String × ℚ => kv.2) d).take 3
      top3.foldl (fun d kv => updMul d kv.1 (13/10)) d
    else d
  if features.imperative then
    if ctxType = "friend" then updAdd d "Curious" (2/10)
    else if ctxType = "enemy" then updAdd (updAdd d "Angry" (2/10)) "Disgusted" (1/10)
    else d
  else d

/-- Keyword stage (lines 209-270). -/
def keywordStage (keyWords : List (List Char)) (ctxType : String) (d : Dist) : Dist :=
  (keyWords.map toLowerL).foldl
    (fun d w =>
      match (keywordEmotionMap.find? fun kv => kv.1 == w).map Prod.snd with
      | some (.fixed l) => l.foldl (fun d ei => updAdd d ei.1 ei.2) d
      | some (.byCtx f) => (f ctxType).foldl (fun d ei => updAdd d ei.1 ei.2) d
      | none => d) d

/-- Context-weighting stage (lines 275-278). -/
def contextWeightStage (ctxType : String) (conf : ℚ) (d : Dist) : Dist :=
  match (CONTEXT_WEIGHTS.find? fun kv => kv.1 == ctxType).map Prod.snd with
  | some tbl => tbl.foldl (fun d ew => updMul d ew.1 (ew.2 * conf)) d
  | none => d

/-- Final clamp of every value into [0, 1] (lines 283-284). -/
def clampStage (d : Dist) : Dist := d.map fun kv => (kv.1, min (max kv.2 0) 1)

/-- Stages 1-7 of `map_to_emotions` (everything before the final clamp,
normalize, filter, renormalize and sort). -/
def map_to_emotions_pre (sentiment : Scores) (features : Features)
    (input_text : List Char) (ctxType : String) (conf : ℚ) : Dist :=
  let d : Dist := BASE_EMOTIONS.map fun e => (e, 5/100)
  let textLower := toLowerL input_text
  let d := if input_text.isEmpty then d
           else patternStage textLower conf (phraseStage textLower ctxType conf d)
  let d := sentimentStage sentiment ctxType conf d
  let scale := 5/10 + sentiment.intensity / 2
  let d := d.map fun kv => (kv.1, kv.2 * scale)
  let d := featureStage features ctxType d
  let d := keywordStage features.key_words ctxType d
  contextWeightStage ctxType conf d

/-- `map_to_emotions`.  The Python function receives the semantic-analysis
dict (sentiment + features + input_text) and the context dict; the fields it
reads are passed here directly. -/
def map_to_emotions (sentiment : Scores) (features : Features)
    (input_text : List Char) (ctxType : String) (conf : ℚ) : Dist :=
  let d := clampStage (map_to_emotions_pre sentiment features input_text ctxType conf)
  let d := normalizeIfPos d
  let d := filterGE (6/100) d
  let d := normalizeIfPos d
  sortDescBy (fun kv : String × ℚ => kv.2) d

/-- `next(iter(emotions), None)` — the `dominant_emotion` response field
built by `process_input` (modules/integration.py line 112). -/
def dominant_emotion (d : Dist) : Option String := d.head?.map Prod.fst

/-! ## Adaptive learner (modules/context_learning.py)

The learner's state is its interaction store (`interaction_history`); the
three association tables are rebuilt in full from the store
(`_rebuild_associations`), so they are derived functions of it here. -/

/-- A persisted interaction record.  The timestamp is supplied by the caller
(`datetime.now().isoformat()` in the source) and never inspected. -/
structure Interaction where
  timestamp : ℕ
  input_text : List Char
  emotions : Dist
  context : String
  feedback : Option Dist
deriving DecidableEq

/-- An interaction participates in the association tables only when both its
text and its emotions are non-empty (`if not text or not emotions: continue`). -/
def validForAssoc (it : Interaction) : Bool :=
  !it.input_text.isEmpty && !it.emotions.isEmpty

/-- Merge an interaction's emotion dict into an accumulator, scaling each
weight (`assoc[key][emotion] += weight * scale`). -/
def mergeEmotions (acc : Dist) (emotions : Dist) (scale : ℚ) : Dist :=
  emotions.foldl (fun acc ev =>
    if (acc.find? fun kv => kv.1 == ev.1).isSome then updAdd acc ev.1 (ev.2 * scale)
    else acc ++ [(ev.1, ev.2 * scale)]) acc

/-- `word_emotion_associations[word]` rebuilt from the store: one merge per
occurrence of `word` in each valid interaction's whitespace-split lowercased
text. -/
def wordAssoc (store : List Interaction) (w : List Char) : Dist :=
  store.foldl (fun acc it =>
    if validForAssoc it then
      (pySplit (toLowerL it.input_text)).foldl
        (fun acc word => if word == w then mergeEmotions acc it.emotions 1 else acc)
        acc
    else acc) []

/-- The consecutive word pairs (bigrams) of a word list, each joined by a
single space. -/
def bigramsOf (words : List (List Char)) : List (List Char) :=
  (words.zip words.tail).map fun p => p.1 ++ ' ' :: p.2

/-- `phrase_emotion_associations[bigram]` rebuilt from the store
(weights scaled by 1.2). -/
def phraseAssoc (store : List Interaction) (b : List Char) : Dist :=
  store.foldl (fun acc it =>
    if validForAssoc it then
      (bigramsOf (pySplit (toLowerL it.input_text))).foldl
        (fun acc bg => if bg == b then mergeEmotions acc it.emotions (12/10) else acc)
        acc
    else acc) []

/-- Python `max(d.items(), key=lambda x: x[1])[0]`: the first key attaining
the maximal value (`max` keeps the earliest maximal element). -/
def listArgmax (d : Dist) : Option String :=
  d.foldl (fun best kv =>
    match best with
    | none => some kv
    | some b => if b.2 < kv.2 then some kv else some b) none
    |>.map Prod.fst

/-- `context_emotion_associations[ctx]` rebuilt from the store: dominant
emotion counts per context type. -/
def contextAssoc (store : List Interaction) (ctx : String) : Dist :=
  store.foldl (fun acc it =>
    if validForAssoc it ∧ it.context = ctx then
      match listArgmax it.emotions with
      | some e =>
        if (acc.find? fun kv => kv.1 == e).isSome then updAdd acc e 1
        else acc ++ [(e, 1)]
      | none => acc
    else acc) []

/-- `learning_factor = min(0.3, len(history) / 100)`. -/
def learningFactor (historyLen : ℕ) : ℚ := min (3/10) ((historyLen : ℚ) / 100)

/-- One lookup's contribution in `adjust_emotions`: normalize the table
entry's weights to sum 1 and accumulate them, scaled.  Skipped when the
entry is absent (empty) or its total weight is not positive. -/
def addNormalized (adjustments : Dist) (entry : Dist) (scale : ℚ) : Dist :=
  if 0 < sumVals entry then
    entry.foldl (fun acc ev =>
      let nw := ev.2 / sumVals entry
      if (acc.find? fun kv => kv.1 == ev.1).isSome then updAdd acc ev.1 (nw * scale)
      else acc ++ [(ev.1, nw * scale)]) adjustments
  else adjustments

/-- `word_adjustments` of `adjust_emotions` (lines 152-160). -/
def wordAdjustments (store : List Interaction) (words : List (List Char)) : Dist :=
  words.foldl (fun acc w => addNormalized acc (wordAssoc store w) 1) []

/-- `phrase_adjustments` (lines 163-172), phrase contributions scaled ×1.5. -/
def phraseAdjustments (store : List Interaction) (words : List (List Char)) : Dist :=
  (bigramsOf words).foldl (fun acc b => addNormalized acc (phraseAssoc store b) (15/10)) []

/-- `context_adjustments` (lines 175-182). -/
def contextAdjustments (store : List Interaction) (ctx : String) : Dist :=
  addNormalized [] (contextAssoc store ctx) 1

/-- Append-new / overwrite-existing union iteration of `adjust_emotions`
(lines 185-201): every emotion in any of the four sources receives
`base*(1-lf) + lf*(0.4*word + 0.4*phrase + 0.2*context)`.  The Python
source iterates the union as a `set`; the iteration order only affects
where freshly-appended keys land, never their values. -/
def adjustedPre (base wa pa ca : Dist) (lf : ℚ) : Dist :=
  let unionKeys := (keysOf base ++ keysOf wa ++ keysOf pa ++ keysOf ca).dedup
  unionKeys.foldl
    (fun acc e =>
      let baseValue := getD base e
      let adjustment := (getD wa e * (4/10) + getD pa e * (4/10) + getD ca e * (2/10)) * lf
      setKV acc e (baseValue * (1 - lf) + adjustment))
    base

/-- `ContextLearner.adjust_emotions`. -/
def adjust_emotions (store : List Interaction) (text : List Char) (ctx : String)
    (emotions : Dist) : Dist :=
  if store.isEmpty then emotions
  else
    let words := pySplit (toLowerL text)
    let lf := learningFactor store.length
    let wa := wordAdjustments store words
    let pa := phraseAdjustments store words
    let ca := contextAdjustments store ctx
    let d := adjustedPre emotions wa pa ca lf
    let d := normalizeIfPos d
    let d := filterGE (5/100) d
    let d := normalizeIfPos d
    sortDescBy (fun kv : String × ℚ => kv.2) d

/-- `ContextLearner.add_interaction`: append, then keep only the most recent
1000 records.  Association rebuild and persistence carry no further state. -/
def add_interaction (store : List Interaction) (it : Interaction) :
    List Interaction :=
  let h := store ++ [it]
  if 1000 < h.length then h.drop (h.length - 1000) else h

/-- The `(index, similarity)` pairs built by `get_similar_interactions`
(lines 237-260), in store order. -/
def similarityScores (store : List Interaction) (text : List Char) (ctx : String) :
    List (ℕ × ℚ) :=
  let textLower := toLowerL text
  let words := (pySplit textLower).dedup
  store.enum.filterMap fun p =>
    let pastLower := toLowerL p.2.input_text
    if p.2.context ≠ ctx then none
    else
      let pastWords := (pySplit pastLower).dedup
      let common := words.filter fun w => pastWords.contains w
      if common.isEmpty then none
      else
        let sim : ℚ := (common.length : ℚ) / (((words ++ pastWords).dedup).length : ℚ)
        let sim := if textLower = pastLower then 1 else sim
        some (p.1, sim)

/-- The ranking order produced by Python's stable descending sort over
`(store index, similarity)` pairs: strictly greater similarity first, ties
in original store order. -/
def simRank (p q : ℕ × ℚ) : Prop := q.2 < p.2 ∨ (p.2 = q.2 ∧ p.1 < q.1)

/-- `ContextLearner.get_similar_interactions`: rank by similarity
(descending, stable) and return the top `limit` interactions.  The indices
produced by `similarityScores` are valid by construction, so the final
index lookup is a `filterMap` over `get?`. -/
def get_similar_interactions (store : List Interaction) (text : List Char)
    (ctx : String) (limit : ℕ) : List Interaction :=
  if store.isEmpty then []
  else
    ((sortDescBy (fun p : ℕ × ℚ => p.2) (similarityScores store text ctx)).take limit).filterMap
      fun p => store.get? p.1

/-! ## General lemmas about distributions -/

lemma sumVals_cons (kv : String × ℚ) (d : Dist) :
    sumVals (kv :: d) = kv.2 + sumVals d := by
  simp [sumVals]

lemma sumVals_nonneg {d : Dist} (h : ∀ kv ∈ d, 0 ≤ kv.2) : 0 ≤ sumVals d := by
  induction d with
  | nil => simp [sumVals]
  | cons kv t ih =>
    rw [sumVals_cons]
    have h1 := h kv (by simp)
    have h2 := ih fun kv hkv => h kv (List.mem_cons_of_mem _ hkv)
    linarith

lemma le_sumVals_of_mem {d : Dist} (h : ∀ kv ∈ d, 0 ≤ kv.2) {kv : String × ℚ}
    (hm : kv ∈ d) : kv.2 ≤ sumVals d := by
  induction d with
  | nil => cases hm
  | cons hd t ih =>
    rw [sumVals_cons]
    rcases List.mem_cons.mp hm with h1 | h1
    · have := sumVals_nonneg (d := t) fun kv hkv => h kv (List.mem_cons_of_mem _ hkv)
      subst h1; linarith
    · have := h hd (by simp)
      have := ih (fun kv hkv => h kv (List.mem_cons_of_mem _ hkv)) h1
      linarith

lemma mem_filterGE {θ : ℚ} {d : Dist} {kv : String × ℚ} :
    kv ∈ filterGE θ d ↔ kv ∈ d ∧ θ ≤ kv.2 := by
  simp [filterGE, List.mem_filter]

lemma sumVals_filterGE_le {θ : ℚ} {d : Dist} (h : ∀ kv ∈ d, 0 ≤ kv.2) :
    sumVals (filterGE θ d) ≤ sumVals d := by
  induction d with
  | nil => simp [filterGE, sumVals]
  | cons kv t ih =>
    have h1 := h kv (by simp)
    have h2 := ih fun kv hkv => h kv (List.mem_cons_of_mem _ hkv)
    simp only [filterGE] at h2 ⊢
    rw [List.filter_cons]
    by_cases hc : θ ≤ kv.2
    · rw [if_pos (by simpa using hc), sumVals_cons, sumVals_cons]
      linarith
    · rw [if_neg (by simpa using hc), sumVals_cons]
      linarith

lemma sumVals_mapDiv (d : Dist) (t : ℚ) :
    sumVals (d.map fun kv => (kv.1, kv.2 / t)) = sumVals d / t := by
  induction d with
  | nil => simp [sumVals]
  | cons kv tl ih =>
    simp only [List.map_cons, sumVals_cons, ih]
    rw [div_add_div_same]

lemma mapDiv_one (d : Dist) : (d.map fun kv => (kv.1, kv.2 / 1)) = d := by
  induction d with
  | nil => rfl
  | cons kv tl ih => simp [ih]

lemma normalizeIfPos_of_pos {d : Dist} (h : 0 < sumVals d) :
    normalizeIfPos d = d.map fun kv => (kv.1, kv.2 / sumVals d) := by
  simp [normalizeIfPos, h]

lemma normalizeIfPos_of_nonpos {d : Dist} (h : ¬ 0 < sumVals d) :
    normalizeIfPos d = d := by
  simp [normalizeIfPos, h]

lemma sumVals_normalizeIfPos_of_pos {d : Dist} (h : 0 < sumVals d) :
    sumVals (normalizeIfPos d) = 1 := by
  rw [normalizeIfPos_of_pos h, sumVals_mapDiv, div_self (ne_of_gt h)]

lemma mem_normalizeIfPos_of_pos {d : Dist} (h : 0 < sumVals d) {kv : String × ℚ}
    (hm : kv ∈ normalizeIfPos d) : ∃ kv0 ∈ d, kv = (kv0.1, kv0.2 / sumVals d) := by
  rw [normalizeIfPos_of_pos h] at hm
  rcases List.mem_map.mp hm with ⟨kv0, h0, h1⟩
  exact ⟨kv0, h0, h1.symm⟩

lemma normalizeIfPos_nil : normalizeIfPos [] = [] := rfl

/-- Values of an all-zero-sum non-negative distribution are all zero. -/
lemma val_eq_zero_of_sum_nonpos {d : Dist} (h : ∀ kv ∈ d, 0 ≤ kv.2)
    (hs : ¬ 0 < sumVals d) {kv : String × ℚ} (hm : kv ∈ d) : kv.2 = 0 := by
  have h1 := h kv hm
  have h2 := le_sumVals_of_mem h hm
  have h3 : sumVals d ≤ 0 := le_of_not_lt hs
  linarith

/-! ## Stable descending sort: permutation and order lemmas -/

lemma insertByDesc_perm (key : α → ℚ) (x : α) (l : List α) :
    List.Perm (insertByDesc key x l) (x :: l) := by
  induction l with
  | nil => exact List.Perm.refl _
  | cons y ys ih =>
    by_cases h : key x ≤ key y
    · simp only [insertByDesc, if_pos h]
      exact (List.Perm.cons y ih).trans (List.Perm.swap x y ys)
    · simp only [insertByDesc, if_neg h]
      exact List.Perm.refl _

lemma sortDescBy_perm (key : α → ℚ) (l : List α) : List.Perm (sortDescBy key l) l := by
  suffices h : ∀ acc : List α,
      List.Perm (l.foldl (fun acc x => insertByDesc key x acc) acc) (acc ++ l) by
    simpa [sortDescBy] using h []
  induction l with
  | nil => intro acc; simp
  | cons x xs ih =>
    intro acc
    simp only [List.foldl_cons]
    have s1 : List.Perm (xs.foldl (fun acc x => insertByDesc key x acc) (insertByDesc key x acc))
        (insertByDesc key x acc ++ xs) := ih _
    have s2 : List.Perm (insertByDesc key x acc ++ xs) ((x :: acc) ++ xs) :=
      (insertByDesc_perm key x acc).append_right xs
    have s3 : List.Perm ((x :: acc) ++ xs) (acc ++ x :: xs) := by
      simpa using (@List.perm_middle _ x acc xs).symm
    exact (s1.trans s2).trans s3

lemma sumVals_sortDescBy (d : Dist) :
    sumVals (sortDescBy (fun kv : String × ℚ => kv.2) d) = sumVals d := by
  exact ((sortDescBy_perm _ d).map Prod.snd).sum_eq

lemma mem_sortDescBy {key : α → ℚ} {l : List α} {x : α} :
    x ∈ sortDescBy key l ↔ x ∈ l :=
  (sortDescBy_perm key l).mem_iff

lemma sortDescBy_eq_nil_iff {key : α → ℚ} {l : List α} :
    sortDescBy key l = [] ↔ l = [] := by
  constructor
  · intro h
    have hp := (sortDescBy_perm key l).symm
    rw [h] at hp
    exact hp.eq_nil
  · intro h; subst h; rfl

/-! ## Claim C9: empty input -/

/-- C9: For an empty annotated token sequence, the sentiment scorer returns
exactly positive 0, negative 0, neutral 1.0, hostility 0, intensity 0. -/
theorem empty_input_neutral_score :
    analyze_sentiment_enhanced [] = ⟨0, 0, 1, 0, 0⟩ := rfl

/-! ## Claim C2: the phrase-negation correction pass vs the step-4 rule -/

/-- C2 counterexample: the per-match update of the phrase-negation correction
pass differs from the step-4 negation rule.  At a positive-lexicon hit of
weight 0.6 on all-zero scores, step 4 adds the full weight to `negative`
(giving 0.6) while the correction pass adds only 0.7×weight (giving 0.42). -/
theorem phrase_negation_rule_counterexample :
    negatedPatternUpdate .pos (6/10) ⟨0, 0, 0, 0, 0⟩ ≠
      step4NegationRule .pos (6/10) ⟨0, 0, 0, 0, 0⟩ := by
  intro h
  have h2 := congrArg Scores.negative h
  norm_num [negatedPatternUpdate, step4NegationRule, clampNonneg, applyLex,
    max_def] at h2

/-- C2 amended: the phrase-negation correction pass applies, per literal
match: a positive-lexicon hit adds 0.7×weight to `negative` and lowers
`positive` by 0.5×weight (floored at 0); a negative-lexicon hit adds the full
weight to `positive` and lowers `negative` by 0.7×weight (floored at 0); a
hostile-lexicon hit lowers `hostility` by 0.6×weight (floored at 0). -/
theorem phrase_negation_rule_amended (w : ℚ) (s : Scores) :
    negatedPatternUpdate .pos w s =
      { s with negative := s.negative + w * (7/10),
               positive := max 0 (s.positive - w * (5/10)) } ∧
    negatedPatternUpdate .neg w s =
      { s with positive := s.positive + w,
               negative := max 0 (s.negative - w * (7/10)) } ∧
    negatedPatternUpdate .hos w s =
      { s with hostility := max 0 (s.hostility - w * (6/10)) } :=
  ⟨rfl, rfl, rfl⟩

/-! ## Claim C8: idempotence of the composer's filter-and-renormalize step -/

/-- C8: the composer's filter-and-renormalize step (drop entries below 0.06,
then divide the remainder by its sum) is idempotent on everything it can
receive in `map_to_emotions` (a non-negative distribution of total at
most 1): a second application changes nothing. -/
theorem filter_renormalize_idempotent (d : Dist) (h0 : ∀ kv ∈ d, 0 ≤ kv.2)
    (h1 : sumVals d ≤ 1) :
    normalizeIfPos (filterGE (6/100) (normalizeIfPos (filterGE (6/100) d))) =
      normalizeIfPos (filterGE (6/100) d) := by
  set f := filterGE (6/100) d with hf
  have hfmem : ∀ kv ∈ f, kv ∈ d ∧ (6/100 : ℚ) ≤ kv.2 := fun kv hkv => mem_filterGE.mp hkv
  rcases List.eq_nil_or_concat f with hnil | ⟨_, _, hne⟩
  · rw [hnil]
    rfl
  · have hfne : f ≠ [] := by rw [hne]; simp
    obtain ⟨kv0, hkv0⟩ := List.exists_mem_of_ne_nil f hfne
    have hfnonneg : ∀ kv ∈ f, 0 ≤ kv.2 := fun kv hkv => h0 kv (hfmem kv hkv).1
    have htpos : 0 < sumVals f := by
      have h2 := (hfmem kv0 hkv0).2
      have h3 := le_sumVals_of_mem hfnonneg hkv0
      linarith
    have htle : sumVals f ≤ 1 := le_trans (sumVals_filterGE_le h0) h1
    set r := normalizeIfPos f with hr
    have hrval : ∀ kv ∈ r, (6/100 : ℚ) ≤ kv.2 := by
      intro kv hkv
      rcases mem_normalizeIfPos_of_pos htpos hkv with ⟨kv1, hm1, heq⟩
      have hv1 : (6/100 : ℚ) ≤ kv1.2 := (hfmem kv1 hm1).2
      have hnn : (0:ℚ) ≤ kv1.2 := hfnonneg kv1 hm1
      have : kv1.2 ≤ kv1.2 / sumVals f := by
        rw [le_div_iff₀ htpos]
        nlinarith
      rw [heq]
      simpa using le_trans hv1 this
    have hrsum : sumVals r = 1 := sumVals_normalizeIfPos_of_pos htpos
    have hfilter : filterGE (6/100) r = r := by
      apply List.filter_eq_self.mpr
      intro kv hkv
      simpa using hrval kv hkv
    rw [hfilter, hr]
    have : 0 < sumVals (normalizeIfPos f) := by rw [hrsum]; norm_num
    rw [normalizeIfPos_of_pos this, hrsum]
    exact mapDiv_one _

/-- C8 witness at a concrete distribution. -/
theorem filter_renormalize_idempotent_witness :
    (∀ kv ∈ ([("Happy", 1/2), ("Sad", 3/100)] : Dist), 0 ≤ kv.2) ∧
    sumVals ([("Happy", 1/2), ("Sad", 3/100)] : Dist) ≤ 1 ∧
    normalizeIfPos (filterGE (6/100)
        (normalizeIfPos (filterGE (6/100) ([("Happy", 1/2), ("Sad", 3/100)] : Dist)))) =
      normalizeIfPos (filterGE (6/100) ([("Happy", 1/2), ("Sad", 3/100)] : Dist)) := by
  refine ⟨?_, ?_, filter_renormalize_idempotent _ ?_ ?_⟩ <;> norm_num [sumVals]

/-! ## Lookup lemmas for `setKV` folds (the learner's union iteration) -/

lemma getD_cons (kv : String × ℚ) (d : Dist) (k : String) :
    getD (kv :: d) k = if kv.1 = k then kv.2 else getD d k := by
  by_cases h : kv.1 = k
  · simp [getD, List.find?_cons_of_pos, h]
  · rw [if_neg h]
    simp only [getD]
    rw [List.find?_cons_of_neg]
    simpa using h

lemma getD_mapSet_same (d : Dist) (k : String) (x : ℚ)
    (h : (d.find? fun kv => kv.1 == k).isSome) :
    getD (d.map fun kv => if kv.1 == k then (kv.1, x) else kv) k = x := by
  induction d with
  | nil => simp at h
  | cons kv t ih =>
    cases hb : (kv.1 == k) with
    | true =>
      have hk : kv.1 = k := by simpa using hb
      simp [hb, getD_cons, hk]
    | false =>
      have hk : ¬ kv.1 = k := by simpa using hb
      simp only [List.map_cons, hb, Bool.false_eq_true, if_false]
      rw [getD_cons, if_neg hk]
      apply ih
      simpa only [List.find?, hb] using h

lemma getD_append_of_none (d : Dist) (e : Dist) (k : String)
    (h : (d.find? fun kv => kv.1 == k) = none) :
    getD (d ++ e) k = getD e k := by
  induction d with
  | nil => simp
  | cons kv t ih =>
    cases hb : (kv.1 == k) with
    | true =>
      simp [List.find?, hb] at h
    | false =>
      have hk : ¬ kv.1 = k := by simpa using hb
      rw [List.cons_append, getD_cons, if_neg hk]
      apply ih
      simpa only [List.find?, hb] using h

lemma getD_setKV_same (d : Dist) (k : String) (x : ℚ) :
    getD (setKV d k x) k = x := by
  unfold setKV
  by_cases h : (d.find? fun kv => kv.1 == k).isSome
  · rw [if_pos h]
    exact getD_mapSet_same d k x h
  · rw [if_neg h]
    rw [getD_append_of_none d _ k (by rwa [Option.not_isSome_iff_eq_none] at h)]
    simp [getD]

lemma getD_mapSet_ne (d : Dist) (k k2 : String) (x : ℚ) (h : k2 ≠ k) :
    getD (d.map fun kv => if kv.1 == k then (kv.1, x) else kv) k2 = getD d k2 := by
  induction d with
  | nil => rfl
  | cons kv t ih =>
    cases hb : (kv.1 == k) with
    | true =>
      have hk : kv.1 = k := by simpa using hb
      have hk2 : ¬ kv.1 = k2 := by rw [hk]; exact fun hh => h hh.symm
      simp only [List.map_cons, hb, if_true]
      rw [getD_cons, getD_cons, if_neg hk2, if_neg hk2]
      exact ih
    | false =>
      simp only [List.map_cons, hb, Bool.false_eq_true, if_false]
      rw [getD_cons, getD_cons]
      by_cases hk2 : kv.1 = k2
      · rw [if_pos hk2, if_pos hk2]
      · rw [if_neg hk2, if_neg hk2]
        exact ih

lemma getD_append_single_ne (d : Dist) (k k2 : String) (x : ℚ) (h : k2 ≠ k) :
    getD (d ++ [(k, x)]) k2 = getD d k2 := by
  induction d with
  | nil =>
    rw [List.nil_append, getD_cons, if_neg (fun hh => h hh.symm)]
  | cons kv t ih =>
    rw [List.cons_append, getD_cons, getD_cons]
    by_cases hk2 : kv.1 = k2
    · rw [if_pos hk2, if_pos hk2]
    · rw [if_neg hk2, if_neg hk2]
      exact ih

lemma getD_setKV_ne (d : Dist) (k k2 : String) (x : ℚ) (h : k2 ≠ k) :
    getD (setKV d k x) k2 = getD d k2 := by
  unfold setKV
  by_cases hf : (d.find? fun kv => kv.1 == k).isSome
  · rw [if_pos hf]
    exact getD_mapSet_ne d k k2 x h
  · rw [if_neg hf]
    exact getD_append_single_ne d k k2 x h

lemma getD_foldl_setKV_not_mem (ks : List String) (f : String → ℚ) (e : String) :
    ∀ d : Dist, e ∉ ks →
      getD (ks.foldl (fun acc k => setKV acc k (f k)) d) e = getD d e := by
  induction ks with
  | nil => intro d _; rfl
  | cons k t ih =>
    intro d he
    rw [List.foldl_cons]
    rw [ih _ (fun hm => he (List.mem_cons_of_mem _ hm))]
    exact getD_setKV_ne d k e (f k) (fun hh => he (hh ▸ List.mem_cons_self k t))

lemma getD_foldl_setKV_mem (ks : List String) (f : String → ℚ) (e : String) :
    ∀ d : Dist, ks.Nodup → e ∈ ks →
      getD (ks.foldl (fun acc k => setKV acc k (f k)) d) e = f e := by
  induction ks with
  | nil => intro d _ he; cases he
  | cons k t ih =>
    intro d hnd he
    rw [List.foldl_cons]
    rcases List.mem_cons.mp he with h1 | h1
    · subst h1
      rw [getD_foldl_setKV_not_mem t f e _ (List.nodup_cons.mp hnd).1]
      exact getD_setKV_same d e (f e)
    · exact ih _ (List.nodup_cons.mp hnd).2 h1

/-- The value `adjustedPre` assigns to every emotion in the union. -/
lemma getD_adjustedPre (base wa pa ca : Dist) (lf : ℚ) (e : String)
    (he : e ∈ (keysOf base ++ keysOf wa ++ keysOf pa ++ keysOf ca).dedup) :
    getD (adjustedPre base wa pa ca lf) e =
      getD base e * (1 - lf) +
      (getD wa e * (4/10) + getD pa e * (4/10) + getD ca e * (2/10)) * lf := by
  unfold adjustedPre
  rw [getD_foldl_setKV_mem _ _ e _ (List.nodup_dedup _) he]

/-! ## Claim C5: the context classifier -/

lemma relSynLookup_friend {r : List Char}
    (h : toLowerL r = "friend".toList ∨ toLowerL r = "ally".toList ∨
      toLowerL r = "friendly".toList ∨ toLowerL r = "positive".toList) :
    relSynLookup r = ("friend", 9/10) := by
  have hne : r ≠ [] := by
    rintro rfl
    rcases h with h | h | h | h <;> simp [toLowerL] at h
  unfold relSynLookup
  rw [if_neg hne, if_pos h]

lemma relSynLookup_enemy {r : List Char}
    (h : toLowerL r = "enemy".toList ∨ toLowerL r = "hostile".toList ∨
      toLowerL r = "negative".toList ∨ toLowerL r = "adversary".toList) :
    relSynLookup r = ("enemy", 9/10) := by
  have hne : r ≠ [] := by
    rintro rfl
    rcases h with h | h | h | h <;> simp [toLowerL] at h
  have hnof : ¬ (toLowerL r = "friend".toList ∨ toLowerL r = "ally".toList ∨
      toLowerL r = "friendly".toList ∨ toLowerL r = "positive".toList) := by
    rcases h with h | h | h | h <;>
      (rintro (h2 | h2 | h2 | h2) <;> rw [h] at h2 <;> exact absurd h2 (by decide))
  unfold relSynLookup
  rw [if_neg hne, if_neg hnof, if_pos h]

lemma relSynLookup_neutral {r : List Char}
    (h : toLowerL r = "neutral".toList ∨ toLowerL r = "stranger".toList ∨
      toLowerL r = "acquaintance".toList) :
    relSynLookup r = ("neutral", 8/10) := by
  have hne : r ≠ [] := by
    rintro rfl
    rcases h with h | h | h <;> simp [toLowerL] at h
  have hnof : ¬ (toLowerL r = "friend".toList ∨ toLowerL r = "ally".toList ∨
      toLowerL r = "friendly".toList ∨ toLowerL r = "positive".toList) := by
    rcases h with h | h | h <;>
      (rintro (h2 | h2 | h2 | h2) <;> rw [h] at h2 <;> exact absurd h2 (by decide))
  have hnoe : ¬ (toLowerL r = "enemy".toList ∨ toLowerL r = "hostile".toList ∨
      toLowerL r = "negative".toList ∨ toLowerL r = "adversary".toList) := by
    rcases h with h | h | h <;>
      (rintro (h2 | h2 | h2 | h2) <;> rw [h] at h2 <;> exact absurd h2 (by decide))
  unfold relSynLookup
  rw [if_neg hne, if_neg hnof, if_neg hnoe, if_pos h]

lemma relSynLookup_unmatched {r : List Char} (h : relUnmatched r) :
    relSynLookup r = ("unknown", 5/10) := by
  obtain ⟨h1, h2, h3, h4, h5, h6, h7, h8, h9, h10, h11⟩ := h
  unfold relSynLookup
  by_cases hne : r = []
  · rw [if_pos hne]
  · rw [if_neg hne,
      if_neg (by rintro (h | h | h | h); exacts [h1 h, h2 h, h3 h, h4 h]),
      if_neg (by rintro (h | h | h | h); exacts [h5 h, h6 h, h7 h, h8 h]),
      if_neg (by rintro (h | h | h); exacts [h9 h, h10 h, h11 h])]

/-- The type/confidence pair of `determine_context`, definitionally. -/
lemma determine_context_pair (relationship : Option (List Char))
    (history : Option (List HistEntry)) (metadata : Option Metadata) :
    ((determine_context relationship history metadata).type_,
      (determine_context relationship history metadata).confidence) =
    (match history with
     | some entries =>
       if (match relationship with
           | none => (("unknown" : String), (5:ℚ)/10)
           | some r => relSynLookup r).1 = "unknown" then histClassify entries
       else match relationship with
           | none => (("unknown" : String), (5:ℚ)/10)
           | some r => relSynLookup r
     | none => match relationship with
           | none => (("unknown" : String), (5:ℚ)/10)
           | some r => relSynLookup r) := by
  cases history <;> rfl

/-- C5: the classifier maps an explicit relationship string via the fixed
synonym table to friend/enemy/neutral with confidence 0.9/0.9/0.8, any
unmatched (or empty, or absent) string to unknown with confidence 0.5 when
no history is supplied; when the type is still unknown and a history is
supplied, it counts an entry friendly when stored positive > 0.6, hostile
when negative > 0.6, adds two hostile counts when hostility > 0.3, and
classifies friend iff friendly > 2×hostile (confidence 0.7), else enemy iff
hostile > friendly (confidence 0.7), else neutral (confidence 0.6). -/
theorem determine_context_spec (relationship : Option (List Char))
    (history : Option (List HistEntry)) (metadata : Option Metadata) :
    (∀ r, relationship = some r →
      (toLowerL r = "friend".toList ∨ toLowerL r = "ally".toList ∨
       toLowerL r = "friendly".toList ∨ toLowerL r = "positive".toList) →
      (determine_context relationship history metadata).type_ = "friend" ∧
      (determine_context relationship history metadata).confidence = 9/10) ∧
    (∀ r, relationship = some r →
      (toLowerL r = "enemy".toList ∨ toLowerL r = "hostile".toList ∨
       toLowerL r = "negative".toList ∨ toLowerL r = "adversary".toList) →
      (determine_context relationship history metadata).type_ = "enemy" ∧
      (determine_context relationship history metadata).confidence = 9/10) ∧
    (∀ r, relationship = some r →
      (toLowerL r = "neutral".toList ∨ toLowerL r = "stranger".toList ∨
       toLowerL r = "acquaintance".toList) →
      (determine_context relationship history metadata).type_ = "neutral" ∧
      (determine_context relationship history metadata).confidence = 8/10) ∧
    ((∀ r, relationship = some r → relUnmatched r) → history = none →
      (determine_context relationship history metadata).type_ = "unknown" ∧
      (determine_context relationship history metadata).confidence = 5/10) ∧
    ((∀ r, relationship = some r → relUnmatched r) → ∀ entries,
      history = some entries →
      (((countIndicators entries).2 * 2 < (countIndicators entries).1 →
        (determine_context relationship history metadata).type_ = "friend" ∧
        (determine_context relationship history metadata).confidence = 7/10) ∧
       (¬ ((countIndicators entries).2 * 2 < (countIndicators entries).1) →
        (countIndicators entries).1 < (countIndicators entries).2 →
        (determine_context relationship history metadata).type_ = "enemy" ∧
        (determine_context relationship history metadata).confidence = 7/10) ∧
       (¬ ((countIndicators entries).2 * 2 < (countIndicators entries).1) →
        ¬ ((countIndicators entries).1 < (countIndicators entries).2) →
        (determine_context relationship history metadata).type_ = "neutral" ∧
        (determine_context relationship history metadata).confidence = 6/10))) := by
  have pairSplit : ∀ a b : String × ℚ,
      ((determine_context relationship history metadata).type_,
        (determine_context relationship history metadata).confidence) = a → a = b →
      (determine_context relationship history metadata).type_ = b.1 ∧
      (determine_context relationship history metadata).confidence = b.2 := by
    rintro a b h1 rfl
    exact ⟨congrArg Prod.fst h1, congrArg Prod.snd h1⟩
  refine ⟨?_, ?_, ?_, ?_, ?_⟩
  · rintro r rfl hsyn
    have hb := relSynLookup_friend hsyn
    refine pairSplit _ ("friend", 9/10) ?_ rfl
    rw [determine_context_pair]
    cases history <;> simp [hb, histClassify]
  · rintro r rfl hsyn
    have hb := relSynLookup_enemy hsyn
    refine pairSplit _ ("enemy", 9/10) ?_ rfl
    rw [determine_context_pair]
    cases history <;> simp [hb, histClassify]
  · rintro r rfl hsyn
    have hb := relSynLookup_neutral hsyn
    refine pairSplit _ ("neutral", 8/10) ?_ rfl
    rw [determine_context_pair]
    cases history <;> simp [hb, histClassify]
  · rintro hu rfl
    refine pairSplit _ ("unknown", 5/10) ?_ rfl
    rw [determine_context_pair]
    cases relationship with
    | none => rfl
    | some r => simp [relSynLookup_unmatched (hu r rfl)]
  · rintro hu entries rfl
    have hbase : (match relationship with
        | none => (("unknown" : String), (5:ℚ)/10)
        | some r => relSynLookup r) = ("unknown", 5/10) := by
      cases relationship with
      | none => rfl
      | some r => simp [relSynLookup_unmatched (hu r rfl)]
    refine ⟨fun h1 => ?_, fun h1 h2 => ?_, fun h1 h2 => ?_⟩
    · refine pairSplit _ ("friend", 7/10) ?_ rfl
      rw [determine_context_pair]
      simp only [hbase]
      simp [histClassify, h1]
    · refine pairSplit _ ("enemy", 7/10) ?_ rfl
      rw [determine_context_pair]
      simp only [hbase]
      simp [histClassify, h1, h2]
    · refine pairSplit _ ("neutral", 6/10) ?_ rfl
      rw [determine_context_pair]
      simp only [hbase]
      simp [histClassify, h1, h2]

/-- C5 witness at concrete inputs: an uppercase synonym, an unmatched
string without history, and an unmatched string with a mixed history. -/
theorem determine_context_spec_witness :
    (determine_context (some "Friend".toList) none none).type_ = "friend" ∧
    (determine_context (some "Friend".toList) none none).confidence = 9/10 ∧
    (determine_context (some "boss".toList) none none).type_ = "unknown" ∧
    (determine_context (some "boss".toList) none none).confidence = 5/10 ∧
    (determine_context none
        (some [⟨some (0, 7/10, 4/10)⟩, ⟨none⟩]) none).type_ = "enemy" ∧
    (determine_context none
        (some [⟨some (0, 7/10, 4/10)⟩, ⟨none⟩]) none).confidence = 7/10 := by
  have h1 := (determine_context_spec (some "Friend".toList) none none).1
    "Friend".toList rfl (by left; decide)
  have h2 := (determine_context_spec (some "boss".toList) none none).2.2.2.1
    (by rintro r hr; cases hr; exact ⟨by decide, by decide, by decide, by decide,
      by decide, by decide, by decide, by decide, by decide, by decide, by decide⟩) rfl
  have hcount : countIndicators [⟨some (0, 7/10, 4/10)⟩, ⟨none⟩] = (0, 3) := by
    norm_num [countIndicators]
  have h3 := ((determine_context_spec none
      (some [⟨some (0, 7/10, 4/10)⟩, ⟨none⟩]) none).2.2.2.2
    (by rintro r hr; cases hr) _ rfl).2.1
    (by rw [hcount]; omega) (by rw [hcount]; omega)
  exact ⟨h1.1, h1.2, h2.1, h2.2, h3.1, h3.2⟩

/-! ## The shared normalize-filter-renormalize-sort tail -/

lemma normalizeIfPos_nonneg_le_one {d : Dist} (h0 : ∀ kv ∈ d, 0 ≤ kv.2) :
    (∀ kv ∈ normalizeIfPos d, 0 ≤ kv.2) ∧ sumVals (normalizeIfPos d) ≤ 1 := by
  by_cases h : 0 < sumVals d
  · constructor
    · intro kv hkv
      rcases mem_normalizeIfPos_of_pos h hkv with ⟨kv0, hm, heq⟩
      rw [heq]
      exact div_nonneg (h0 kv0 hm) (le_of_lt h)
    · rw [sumVals_normalizeIfPos_of_pos h]
  · rw [normalizeIfPos_of_nonpos h]
    refine ⟨h0, ?_⟩
    have := sumVals_nonneg h0
    linarith [le_of_not_lt h]

/-- Invariant of the shared tail `sort ∘ normalize ∘ filter θ ∘ normalize`
applied to a non-negative distribution: a non-empty result sums to exactly 1
and every retained weight lies in [θ, 1]. -/
lemma pipeline_invariant (θ : ℚ) (hθ : 0 < θ) (d : Dist)
    (h0 : ∀ kv ∈ d, 0 ≤ kv.2)
    (hne : sortDescBy (fun kv : String × ℚ => kv.2)
        (normalizeIfPos (filterGE θ (normalizeIfPos d))) ≠ []) :
    sumVals (sortDescBy (fun kv : String × ℚ => kv.2)
        (normalizeIfPos (filterGE θ (normalizeIfPos d)))) = 1 ∧
    ∀ kv ∈ sortDescBy (fun kv : String × ℚ => kv.2)
        (normalizeIfPos (filterGE θ (normalizeIfPos d))),
      θ ≤ kv.2 ∧ kv.2 ≤ 1 := by
  obtain ⟨hn1, hn1sum⟩ := normalizeIfPos_nonneg_le_one h0
  set n1 := normalizeIfPos d with hn1def
  set f := filterGE θ n1 with hfdef
  have hfprops : ∀ kv ∈ f, kv ∈ n1 ∧ θ ≤ kv.2 := fun kv hkv => mem_filterGE.mp hkv
  have hfnonneg : ∀ kv ∈ f, 0 ≤ kv.2 := fun kv hkv => hn1 kv (hfprops kv hkv).1
  rcases List.eq_nil_or_concat f with hnil | ⟨_, _, hcc⟩
  · exfalso
    apply hne
    rw [hnil]
    rfl
  · have hfne : f ≠ [] := by rw [hcc]; simp
    obtain ⟨kv0, hkv0⟩ := List.exists_mem_of_ne_nil f hfne
    have htpos : 0 < sumVals f := by
      have h2 := (hfprops kv0 hkv0).2
      have h3 := le_sumVals_of_mem hfnonneg hkv0
      linarith
    have htle : sumVals f ≤ 1 := le_trans (sumVals_filterGE_le hn1) hn1sum
    have hsum2 : sumVals (normalizeIfPos f) = 1 := sumVals_normalizeIfPos_of_pos htpos
    have hvals : ∀ kv ∈ normalizeIfPos f, θ ≤ kv.2 ∧ kv.2 ≤ 1 := by
      intro kv hkv
      rcases mem_normalizeIfPos_of_pos htpos hkv with ⟨kv1, hm1, heq⟩
      have hv1 : θ ≤ kv1.2 := (hfprops kv1 hm1).2
      have hle : kv1.2 ≤ sumVals f := le_sumVals_of_mem hfnonneg hm1
      rw [heq]
      constructor
      · refine le_trans hv1 ?_
        rw [le_div_iff₀ htpos]
        nlinarith [hfnonneg kv1 hm1]
      · simp only
        rw [div_le_one htpos]
        exact hle
    constructor
    · rw [sumVals_sortDescBy, hsum2]
    · intro kv hkv
      exact hvals kv (mem_sortDescBy.mp hkv)

lemma clampStage_nonneg (d : Dist) : ∀ kv ∈ clampStage d, 0 ≤ kv.2 := by
  intro kv hkv
  rcases List.mem_map.mp hkv with ⟨kv0, _, heq⟩
  rw [← heq]
  simp only
  exact le_min (le_max_right _ _) zero_le_one

/-! ## Non-negativity of the learner's adjustment tables -/

lemma foldl_preserve_mem {β : Type} (P : Dist → Prop) (f : Dist → β → Dist) :
    ∀ (l : List β), (∀ b ∈ l, ∀ d, P d → P (f d b)) → ∀ d, P d → P (l.foldl f d) := by
  intro l
  induction l with
  | nil => intro _ d hd; exact hd
  | cons b t ih =>
    intro hstep d hd
    rw [List.foldl_cons]
    exact ih (fun b2 hb2 => hstep b2 (List.mem_cons_of_mem _ hb2)) _
      (hstep b (List.mem_cons_self _ _) d hd)

lemma updAdd_nonneg {d : Dist} (h0 : ∀ kv ∈ d, 0 ≤ kv.2) {k : String} {x : ℚ}
    (hx : 0 ≤ x) : ∀ kv ∈ updAdd d k x, 0 ≤ kv.2 := by
  intro kv hkv
  rcases List.mem_map.mp hkv with ⟨kv0, hm, heq⟩
  by_cases hb : kv0.1 == k
  · rw [← heq, if_pos hb]
    have := h0 kv0 hm
    simp only
    linarith
  · rw [← heq, if_neg hb]
    exact h0 kv0 hm

lemma mergeEmotions_nonneg {acc emotions : Dist} {scale : ℚ}
    (hacc : ∀ kv ∈ acc, 0 ≤ kv.2) (hemo : ∀ kv ∈ emotions, 0 ≤ kv.2)
    (hs : 0 ≤ scale) : ∀ kv ∈ mergeEmotions acc emotions scale, 0 ≤ kv.2 := by
  unfold mergeEmotions
  refine foldl_preserve_mem (fun d => ∀ kv ∈ d, 0 ≤ kv.2) _ emotions ?_ acc hacc
  intro ev hev d hd
  by_cases hf : (d.find? fun kv => kv.1 == ev.1).isSome
  · rw [if_pos hf]
    exact updAdd_nonneg hd (mul_nonneg (hemo ev hev) hs)
  · rw [if_neg hf]
    intro kv hkv
    rcases List.mem_append.mp hkv with hm | hm
    · exact hd kv hm
    · rcases List.mem_singleton.mp hm with rfl
      exact mul_nonneg (hemo ev hev) hs

lemma wordAssoc_nonneg {store : List Interaction}
    (hstore : ∀ it ∈ store, ∀ ev ∈ it.emotions, 0 ≤ ev.2) (w : List Char) :
    ∀ kv ∈ wordAssoc store w, 0 ≤ kv.2 := by
  unfold wordAssoc
  refine foldl_preserve_mem (fun d => ∀ kv ∈ d, 0 ≤ kv.2) _ store ?_ [] (by simp)
  intro it hit d hd
  by_cases hv : validForAssoc it
  · rw [if_pos hv]
    refine foldl_preserve_mem (fun d => ∀ kv ∈ d, 0 ≤ kv.2) _ _ ?_ d hd
    intro word _ d2 hd2
    by_cases hw : word == w
    · rw [if_pos hw]
      exact mergeEmotions_nonneg hd2 (hstore it hit) (by norm_num)
    · rw [if_neg hw]
      exact hd2
  · rw [if_neg hv]
    exact hd

lemma phraseAssoc_nonneg {store : List Interaction}
    (hstore : ∀ it ∈ store, ∀ ev ∈ it.emotions, 0 ≤ ev.2) (b : List Char) :
    ∀ kv ∈ phraseAssoc store b, 0 ≤ kv.2 := by
  unfold phraseAssoc
  refine foldl_preserve_mem (fun d => ∀ kv ∈ d, 0 ≤ kv.2) _ store ?_ [] (by simp)
  intro it hit d hd
  by_cases hv : validForAssoc it
  · rw [if_pos hv]
    refine foldl_preserve_mem (fun d => ∀ kv ∈ d, 0 ≤ kv.2) _ _ ?_ d hd
    intro bg _ d2 hd2
    by_cases hw : bg == b
    · rw [if_pos hw]
      exact mergeEmotions_nonneg hd2 (hstore it hit) (by norm_num)
    · rw [if_neg hw]
      exact hd2
  · rw [if_neg hv]
    exact hd

lemma contextAssoc_nonneg (store : List Interaction) (ctx : String) :
    ∀ kv ∈ contextAssoc store ctx, 0 ≤ kv.2 := by
  unfold contextAssoc
  refine foldl_preserve_mem (fun d => ∀ kv ∈ d, 0 ≤ kv.2) _ store ?_ [] (by simp)
  intro it _ d hd
  by_cases hv : validForAssoc it ∧ it.context = ctx
  · rw [if_pos hv]
    cases harg : listArgmax it.emotions with
    | none => exact hd
    | some e =>
      dsimp only
      by_cases hf : (d.find? fun kv => kv.1 == e).isSome
      · rw [if_pos hf]
        exact updAdd_nonneg hd (by norm_num)
      · rw [if_neg hf]
        intro kv hkv
        rcases List.mem_append.mp hkv with hm | hm
        · exact hd kv hm
        · rcases List.mem_singleton.mp hm with rfl
          norm_num
  · rw [if_neg hv]
    exact hd

lemma addNormalized_nonneg {adjustments entry : Dist} {scale : ℚ}
    (hadj : ∀ kv ∈ adjustments, 0 ≤ kv.2) (hent : ∀ kv ∈ entry, 0 ≤ kv.2)
    (hs : 0 ≤ scale) : ∀ kv ∈ addNormalized adjustments entry scale, 0 ≤ kv.2 := by
  unfold addNormalized
  by_cases hpos : 0 < sumVals entry
  · rw [if_pos hpos]
    refine foldl_preserve_mem (fun d => ∀ kv ∈ d, 0 ≤ kv.2) _ entry ?_ _ hadj
    intro ev hev d hd
    have hnn : 0 ≤ ev.2 / sumVals entry * scale :=
      mul_nonneg (div_nonneg (hent ev hev) (le_of_lt hpos)) hs
    by_cases hf : (d.find? fun kv => kv.1 == ev.1).isSome
    · rw [if_pos hf]
      exact updAdd_nonneg hd hnn
    · rw [if_neg hf]
      intro kv hkv
      rcases List.mem_append.mp hkv with hm | hm
      · exact hd kv hm
      · rcases List.mem_singleton.mp hm with rfl
        exact hnn
  · rw [if_neg hpos]
    exact hadj

lemma getD_nonneg {d : Dist} (h0 : ∀ kv ∈ d, 0 ≤ kv.2) (k : String) :
    0 ≤ getD d k := by
  unfold getD
  cases hf : d.find? fun kv => kv.1 == k with
  | none => exact le_refl 0
  | some kv => exact h0 kv (List.mem_of_find?_eq_some hf)

lemma wordAdjustments_nonneg {store : List Interaction}
    (hstore : ∀ it ∈ store, ∀ ev ∈ it.emotions, 0 ≤ ev.2)
    (words : List (List Char)) : ∀ kv ∈ wordAdjustments store words, 0 ≤ kv.2 := by
  unfold wordAdjustments
  refine foldl_preserve_mem (fun d => ∀ kv ∈ d, 0 ≤ kv.2) _ words ?_ [] (by simp)
  intro w _ d hd
  exact addNormalized_nonneg hd (wordAssoc_nonneg hstore w) (by norm_num)

lemma phraseAdjustments_nonneg {store : List Interaction}
    (hstore : ∀ it ∈ store, ∀ ev ∈ it.emotions, 0 ≤ ev.2)
    (words : List (List Char)) : ∀ kv ∈ phraseAdjustments store words, 0 ≤ kv.2 := by
  unfold phraseAdjustments
  refine foldl_preserve_mem (fun d => ∀ kv ∈ d, 0 ≤ kv.2) _ _ ?_ [] (by simp)
  intro b _ d hd
  exact addNormalized_nonneg hd (phraseAssoc_nonneg hstore b) (by norm_num)

lemma contextAdjustments_nonneg (store : List Interaction) (ctx : String) :
    ∀ kv ∈ contextAdjustments store ctx, 0 ≤ kv.2 :=
  addNormalized_nonneg (by simp) (contextAssoc_nonneg store ctx) (by norm_num)

lemma learningFactor_bounds (n : ℕ) :
    0 ≤ learningFactor n ∧ learningFactor n ≤ 3/10 := by
  unfold learningFactor
  constructor
  · apply le_min
    · norm_num
    · positivity
  · exact min_le_left _ _

lemma setKV_nonneg {d : Dist} (h0 : ∀ kv ∈ d, 0 ≤ kv.2) {k : String} {x : ℚ}
    (hx : 0 ≤ x) : ∀ kv ∈ setKV d k x, 0 ≤ kv.2 := by
  unfold setKV
  by_cases hf : (d.find? fun kv => kv.1 == k).isSome
  · rw [if_pos hf]
    intro kv hkv
    rcases List.mem_map.mp hkv with ⟨kv0, hm, heq⟩
    by_cases hb : kv0.1 == k
    · rw [← heq, if_pos hb]
      exact hx
    · rw [← heq, if_neg hb]
      exact h0 kv0 hm
  · rw [if_neg hf]
    intro kv hkv
    rcases List.mem_append.mp hkv with hm | hm
    · exact h0 kv hm
    · rcases List.mem_singleton.mp hm with rfl
      exact hx

lemma adjustedPre_nonneg {base wa pa ca : Dist} {lf : ℚ}
    (hb : ∀ kv ∈ base, 0 ≤ kv.2) (hw : ∀ kv ∈ wa, 0 ≤ kv.2)
    (hp : ∀ kv ∈ pa, 0 ≤ kv.2) (hc : ∀ kv ∈ ca, 0 ≤ kv.2)
    (hlf0 : 0 ≤ lf) (hlf1 : lf ≤ 3/10) :
    ∀ kv ∈ adjustedPre base wa pa ca lf, 0 ≤ kv.2 := by
  unfold adjustedPre
  refine foldl_preserve_mem (fun d => ∀ kv ∈ d, 0 ≤ kv.2) _ _ ?_ base hb
  intro e _ d hd
  refine setKV_nonneg hd ?_
  have h1 := getD_nonneg hb e
  have h2 := getD_nonneg hw e
  have h3 := getD_nonneg hp e
  have h4 := getD_nonneg hc e
  have : (0:ℚ) ≤ getD wa e * (4/10) + getD pa e * (4/10) + getD ca e * (2/10) := by
    positivity
  nlinarith

/-! ## Monotonicity and key-preservation through the composer's stages -/

lemma getD_updAdd_ge (d : Dist) (k2 k : String) (x : ℚ) (hx : 0 ≤ x) :
    getD d k ≤ getD (updAdd d k2 x) k := by
  induction d with
  | nil => simp [updAdd, getD]
  | cons kv t ih =>
    unfold updAdd at ih ⊢
    rw [List.map_cons]
    by_cases hb : kv.1 == k2
    · rw [if_pos hb, getD_cons, getD_cons]
      simp only
      by_cases hk : kv.1 = k
      · rw [if_pos hk, if_pos hk]
        linarith
      · rw [if_neg hk, if_neg hk]
        exact ih
    · rw [if_neg hb, getD_cons, getD_cons]
      by_cases hk : kv.1 = k
      · rw [if_pos hk, if_pos hk]
      · rw [if_neg hk, if_neg hk]
        exact ih

lemma getD_updMul_ge (d : Dist) (k2 k : String) (m : ℚ) (hm : 1 ≤ m)
    {x : ℚ} (hx : 0 ≤ x) (h : x ≤ getD d k) : x ≤ getD (updMul d k2 m) k := by
  induction d with
  | nil => simpa [updMul, getD] using h
  | cons kv t ih =>
    unfold updMul at ih ⊢
    rw [List.map_cons]
    rw [getD_cons] at h
    by_cases hb : kv.1 == k2
    · rw [if_pos hb, getD_cons]
      simp only
      by_cases hk : kv.1 = k
      · rw [if_pos hk]
        rw [if_pos hk] at h
        nlinarith
      · rw [if_neg hk]
        rw [if_neg hk] at h
        exact ih h
    · rw [if_neg hb, getD_cons]
      by_cases hk : kv.1 = k
      · rw [if_pos hk]
        rwa [if_pos hk] at h
      · rw [if_neg hk]
        rw [if_neg hk] at h
        exact ih h

lemma getD_updMul_ne (d : Dist) (k2 k : String) (m : ℚ) (h : k2 ≠ k) :
    getD (updMul d k2 m) k = getD d k := by
  induction d with
  | nil => rfl
  | cons kv t ih =>
    unfold updMul at ih ⊢
    rw [List.map_cons]
    by_cases hb : kv.1 == k2
    · have hk : ¬ kv.1 = k := by
        have : kv.1 = k2 := by simpa using hb
        rw [this]
        exact h
      rw [if_pos hb, getD_cons, getD_cons]
      simp only
      rw [if_neg hk, if_neg hk]
      exact ih
    · rw [if_neg hb, getD_cons, getD_cons]
      by_cases hk : kv.1 = k
      · rw [if_pos hk, if_pos hk]
      · rw [if_neg hk, if_neg hk]
        exact ih

lemma getD_foldl_ge_mem {β : Type} (f : Dist → β → Dist) (l : List β) (k : String)
    (h : ∀ b ∈ l, ∀ d, getD d k ≤ getD (f d b) k) :
    ∀ d, getD d k ≤ getD (l.foldl f d) k := by
  induction l with
  | nil => intro d; exact le_refl _
  | cons b t ih =>
    intro d
    rw [List.foldl_cons]
    refine le_trans (h b (List.mem_cons_self _ _) d) ?_
    exact ih (fun b2 hb2 => h b2 (List.mem_cons_of_mem _ hb2)) _

lemma getD_foldl_updAdd_ge (l : List (String × ℚ)) (k : String)
    (hl : ∀ ei ∈ l, 0 ≤ ei.2) (d : Dist) :
    getD d k ≤ getD (l.foldl (fun d ei => updAdd d ei.1 ei.2) d) k :=
  getD_foldl_ge_mem _ l k
    (fun ei hei d2 => getD_updAdd_ge d2 ei.1 k ei.2 (hl ei hei)) d

lemma getD_foldl_updMul_ne (l : List (String × ℚ)) (k : String) (s : ℚ)
    (hl : ∀ ei ∈ l, ei.1 ≠ k) (d : Dist) :
    getD (l.foldl (fun d ei => updMul d ei.1 (ei.2 * s)) d) k = getD d k := by
  induction l generalizing d with
  | nil => rfl
  | cons ei t ih =>
    rw [List.foldl_cons, ih (fun e2 he2 => hl e2 (List.mem_cons_of_mem _ he2))]
    exact getD_updMul_ne d ei.1 k _ (hl ei (List.mem_cons_self _ _))

lemma getD_mapMul (d : Dist) (s : ℚ) (k : String) :
    getD (d.map fun kv => (kv.1, kv.2 * s)) k = getD d k * s := by
  induction d with
  | nil => simp [getD]
  | cons kv t ih =>
    rw [List.map_cons, getD_cons, getD_cons]
    by_cases hk : kv.1 = k
    · rw [if_pos hk, if_pos hk]
    · rw [if_neg hk, if_neg hk]
      exact ih

lemma getD_clampStage (d : Dist) (k : String) :
    getD (clampStage d) k = min (max (getD d k) 0) 1 := by
  induction d with
  | nil => simp [clampStage, getD]
  | cons kv t ih =>
    unfold clampStage at ih ⊢
    rw [List.map_cons, getD_cons, getD_cons]
    by_cases hk : kv.1 = k
    · rw [if_pos hk, if_pos hk]
    · rw [if_neg hk, if_neg hk]
      exact ih

lemma keysOf_updAdd (d : Dist) (k : String) (x : ℚ) :
    keysOf (updAdd d k x) = keysOf d := by
  unfold keysOf updAdd
  rw [List.map_map]
  apply List.map_congr_left
  intro kv _
  dsimp only [Function.comp]
  split <;> rfl

lemma keysOf_updMul (d : Dist) (k : String) (m : ℚ) :
    keysOf (updMul d k m) = keysOf d := by
  unfold keysOf updMul
  rw [List.map_map]
  apply List.map_congr_left
  intro kv _
  dsimp only [Function.comp]
  split <;> rfl

lemma keysOf_foldl {β : Type} (f : Dist → β → Dist) (l : List β)
    (h : ∀ b d, keysOf (f d b) = keysOf d) (d : Dist) :
    keysOf (l.foldl f d) = keysOf d := by
  induction l generalizing d with
  | nil => rfl
  | cons b t ih => rw [List.foldl_cons, ih, h]

lemma keysOf_mapSnd (d : Dist) (g : String × ℚ → ℚ) :
    keysOf (d.map fun kv => (kv.1, g kv)) = keysOf d := by
  unfold keysOf
  rw [List.map_map]
  rfl

lemma keysOf_phraseStage (textLower : List Char) (ctxType : String) (conf : ℚ)
    (d : Dist) : keysOf (phraseStage textLower ctxType conf d) = keysOf d := by
  unfold phraseStage
  refine keysOf_foldl _ _ ?_ d
  intro p d2
  by_cases hc : containsSub textLower p.1
  · rw [if_pos hc]
    cases p.2.2.2 with
    | some c =>
      dsimp only
      by_cases hcc : c ≠ ctxType
      · rw [if_pos hcc]
      · rw [if_neg hcc]
        exact keysOf_updAdd _ _ _
    | none => exact keysOf_updAdd _ _ _
  · rw [if_neg hc]

lemma keysOf_patternStage (textLower : List Char) (conf : ℚ) (d : Dist) :
    keysOf (patternStage textLower conf d) = keysOf d := by
  unfold patternStage
  refine keysOf_foldl _ _ ?_ d
  intro ep d2
  refine keysOf_foldl _ _ ?_ d2
  intro pat d3
  by_cases hc : containsSub textLower pat
  · rw [if_pos hc]
    exact keysOf_updAdd _ _ _
  · rw [if_neg hc]

lemma keysOf_foldl_updMul (l : List (String × ℚ)) (m : ℚ) (d : Dist) :
    keysOf (l.foldl (fun d kv => updMul d kv.1 m) d) = keysOf d :=
  keysOf_foldl _ _ (fun (b : String × ℚ) d3 => keysOf_updMul d3 b.1 m) d

lemma keysOf_sentimentStage (senti : Scores) (ctxType : String) (conf : ℚ)
    (d : Dist) : keysOf (sentimentStage senti ctxType conf d) = keysOf d := by
  unfold sentimentStage
  split_ifs <;> simp [apply_ite keysOf, keysOf_updAdd]

lemma keysOf_featureStage (features : Features) (ctxType : String) (d : Dist) :
    keysOf (featureStage features ctxType d) = keysOf d := by
  unfold featureStage
  split_ifs <;> simp [keysOf_updAdd, keysOf_foldl_updMul]

/-! ## Claim C1: distribution invariants of the composer and the learner -/

/-- C1 counterexample: the learner's filter threshold is 0.05, not 0.06.
With one stored interaction and a valid base distribution (weights sum to 1,
all ≥ 0.06), `adjust_emotions` returns a non-empty mapping containing the
weight 297/4960 ≈ 0.0599 < 0.06. -/
theorem adjust_emotions_threshold_counterexample :
    adjust_emotions [⟨0, "hello".toList, [("happy", 1)], "friend", none⟩]
        [] "friend" [("happy", 47/50), ("sad", 3/50)] =
      [("happy", 4663/4960), ("sad", 297/4960)] ∧
    ¬ (∀ kv ∈ adjust_emotions [⟨0, "hello".toList, [("happy", 1)], "friend", none⟩]
        [] "friend" [("happy", 47/50), ("sad", 3/50)], (6/100 : ℚ) ≤ kv.2) := by
  have heq : adjust_emotions [⟨0, "hello".toList, [("happy", 1)], "friend", none⟩]
      [] "friend" [("happy", 47/50), ("sad", 3/50)] =
      [("happy", 4663/4960), ("sad", 297/4960)] := by
    with_unfolding_all rfl
  refine ⟨heq, fun hall => ?_⟩
  have := hall ("sad", 297/4960) (by rw [heq]; simp)
  norm_num at this

/-- C1 amended: a non-empty distribution returned by the composer's
`map_to_emotions` sums to exactly 1 with every weight in [0.06, 1]; a
non-empty distribution returned by the learner's `adjust_emotions` on a
non-empty store (with non-negative stored weights and base weights) sums to
exactly 1 with every weight in [0.05, 1] — the learner's filter threshold
is 0.05, not 0.06. -/
theorem distribution_invariant_amended (sentiment : Scores) (features : Features)
    (input_text : List Char) (ctxType : String) (conf : ℚ)
    (store : List Interaction) (text : List Char) (ctx : String) (base : Dist) :
    (map_to_emotions sentiment features input_text ctxType conf ≠ [] →
      sumVals (map_to_emotions sentiment features input_text ctxType conf) = 1 ∧
      ∀ kv ∈ map_to_emotions sentiment features input_text ctxType conf,
        (6/100 : ℚ) ≤ kv.2 ∧ kv.2 ≤ 1) ∧
    (store ≠ [] → (∀ kv ∈ base, 0 ≤ kv.2) →
      (∀ it ∈ store, ∀ ev ∈ it.emotions, 0 ≤ ev.2) →
      adjust_emotions store text ctx base ≠ [] →
      sumVals (adjust_emotions store text ctx base) = 1 ∧
      ∀ kv ∈ adjust_emotions store text ctx base,
        (5/100 : ℚ) ≤ kv.2 ∧ kv.2 ≤ 1) := by
  constructor
  · intro hne
    exact pipeline_invariant (6/100) (by norm_num)
      (clampStage (map_to_emotions_pre sentiment features input_text ctxType conf))
      (clampStage_nonneg _) hne
  · intro hs hbase hstore hne
    have hsb : store.isEmpty = false := by
      cases store with
      | nil => exact absurd rfl hs
      | cons a t => rfl
    have hpre : ∀ kv ∈ adjustedPre base
        (wordAdjustments store (pySplit (toLowerL text)))
        (phraseAdjustments store (pySplit (toLowerL text)))
        (contextAdjustments store ctx) (learningFactor store.length), 0 ≤ kv.2 :=
      adjustedPre_nonneg hbase
        (wordAdjustments_nonneg hstore _)
        (phraseAdjustments_nonneg hstore _)
        (contextAdjustments_nonneg store ctx)
        (learningFactor_bounds store.length).1 (learningFactor_bounds store.length).2
    have hrw : adjust_emotions store text ctx base =
        sortDescBy (fun kv : String × ℚ => kv.2)
          (normalizeIfPos (filterGE (5/100) (normalizeIfPos (adjustedPre base
            (wordAdjustments store (pySplit (toLowerL text)))
            (phraseAdjustments store (pySplit (toLowerL text)))
            (contextAdjustments store ctx) (learningFactor store.length))))) := by
      unfold adjust_emotions
      rw [hsb]
      rfl
    rw [hrw] at hne ⊢
    exact pipeline_invariant (5/100) (by norm_num) _ hpre hne

/-- C1 amended witness: a concrete composer run and a concrete learner run,
with every hypothesis discharged. -/
theorem distribution_invariant_amended_witness :
    (map_to_emotions ⟨1/2, 0, 1/2, 0, 1/2⟩ ⟨false, false, false, []⟩ []
        "friend" (9/10) ≠ [] →
      sumVals (map_to_emotions ⟨1/2, 0, 1/2, 0, 1/2⟩ ⟨false, false, false, []⟩ []
        "friend" (9/10)) = 1) ∧
    sumVals (adjust_emotions [⟨0, "hello".toList, [("happy", 1)], "friend", none⟩]
      [] "friend" [("happy", 47/50), ("sad", 3/50)]) = 1 ∧
    ∀ kv ∈ adjust_emotions [⟨0, "hello".toList, [("happy", 1)], "friend", none⟩]
      [] "friend" [("happy", 47/50), ("sad", 3/50)],
      (5/100 : ℚ) ≤ kv.2 ∧ kv.2 ≤ 1 := by
  have h2 := (distribution_invariant_amended ⟨1/2, 0, 1/2, 0, 1/2⟩
    ⟨false, false, false, []⟩ [] "friend" (9/10)
    [⟨0, "hello".toList, [("happy", 1)], "friend", none⟩] [] "friend"
    [("happy", 47/50), ("sad", 3/50)]).2
    (by simp)
    (by intro kv hkv
        simp only [List.mem_cons, List.not_mem_nil, or_false] at hkv
        rcases hkv with rfl | rfl <;> norm_num)
    (by intro it hit
        simp only [List.mem_cons, List.not_mem_nil, or_false] at hit
        subst hit
        intro ev hev
        simp only [List.mem_cons, List.not_mem_nil, or_false] at hev
        subst hev
        norm_num)
    (by rw [show adjust_emotions [⟨0, "hello".toList, [("happy", 1)], "friend", none⟩]
          [] "friend" [("happy", 47/50), ("sad", 3/50)] =
          [("happy", 4663/4960), ("sad", 297/4960)] from by with_unfolding_all rfl]
        simp)
  refine ⟨fun hne => ?_, h2.1, h2.2⟩
  exact ((distribution_invariant_amended ⟨1/2, 0, 1/2, 0, 1/2⟩
    ⟨false, false, false, []⟩ [] "friend" (9/10)
    [] [] "friend" []).1 hne).1

/-! ## Claim C4: the learner's adjust operation -/

/-- C4: `adjust_emotions` returns its input unchanged when the interaction
store is empty; the learning factor is `min(0.3, historySize/100)`, hence
monotonically non-decreasing in store size and never exceeding 0.3; and
every emotion in the union of the four sources gets the pre-normalization
value `base*(1-lf) + lf*(0.4*word_adj + 0.4*phrase_adj + 0.2*context_adj)`. -/
theorem adjust_emotions_formula (store : List Interaction) (text : List Char)
    (ctx : String) (emotions : Dist) :
    (store = [] → adjust_emotions store text ctx emotions = emotions) ∧
    learningFactor store.length ≤ 3/10 ∧
    (∀ n m : ℕ, n ≤ m → learningFactor n ≤ learningFactor m) ∧
    (∀ e, e ∈ (keysOf emotions ++
        keysOf (wordAdjustments store (pySplit (toLowerL text))) ++
        keysOf (phraseAdjustments store (pySplit (toLowerL text))) ++
        keysOf (contextAdjustments store ctx)).dedup →
      getD (adjustedPre emotions (wordAdjustments store (pySplit (toLowerL text)))
          (phraseAdjustments store (pySplit (toLowerL text)))
          (contextAdjustments store ctx) (learningFactor store.length)) e =
        getD emotions e * (1 - learningFactor store.length) +
        (getD (wordAdjustments store (pySplit (toLowerL text))) e * (4/10) +
         getD (phraseAdjustments store (pySplit (toLowerL text))) e * (4/10) +
         getD (contextAdjustments store ctx) e * (2/10)) *
          learningFactor store.length) := by
  refine ⟨fun h => ?_, min_le_left _ _, fun n m h => ?_, fun e he => ?_⟩
  · subst h
    rfl
  · unfold learningFactor
    have hc : (n : ℚ) ≤ m := by exact_mod_cast h
    gcongr
  · exact getD_adjustedPre _ _ _ _ _ e he

/-- C4 witness: at an empty store the adjustment is the identity and the
per-emotion formula holds for the lone base emotion; the learning factor is
monotone between concrete store sizes. -/
theorem adjust_emotions_formula_witness :
    adjust_emotions [] "hi".toList "friend" [("Happy", 1)] = [("Happy", 1)] ∧
    learningFactor 1 ≤ learningFactor 2 ∧
    getD (adjustedPre [("Happy", 1)]
        (wordAdjustments [] (pySplit (toLowerL "hi".toList)))
        (phraseAdjustments [] (pySplit (toLowerL "hi".toList)))
        (contextAdjustments [] "friend") (learningFactor (0 : ℕ))) "Happy" =
      getD [("Happy", 1)] "Happy" * (1 - learningFactor (0 : ℕ)) +
      (getD (wordAdjustments [] (pySplit (toLowerL "hi".toList))) "Happy" * (4/10) +
       getD (phraseAdjustments [] (pySplit (toLowerL "hi".toList))) "Happy" * (4/10) +
       getD (contextAdjustments [] "friend") "Happy" * (2/10)) *
        learningFactor (0 : ℕ) := by
  refine ⟨(adjust_emotions_formula [] "hi".toList "friend" [("Happy", 1)]).1 rfl,
    (adjust_emotions_formula [] "hi".toList "friend" [("Happy", 1)]).2.2.1 1 2
      (by norm_num), ?_⟩
  have h := (adjust_emotions_formula [] "hi".toList "friend" [("Happy", 1)]).2.2.2
    "Happy" (by decide)
  simpa using h

/-! ## Claim C6: similarity search -/

lemma le_fst_of_mem_enumFrom {α : Type} {l : List α} :
    ∀ {m : ℕ} {b : ℕ × α}, b ∈ List.enumFrom m l → m ≤ b.1 := by
  induction l with
  | nil => intro m b hb; simp at hb
  | cons x t ih =>
    intro m b hb
    rw [List.enumFrom_cons] at hb
    rcases List.mem_cons.mp hb with rfl | hb
    · exact le_refl _
    · exact le_trans (Nat.le_succ m) (ih hb)

lemma pairwise_fst_lt_enumFrom {α : Type} (l : List α) :
    ∀ n, List.Pairwise (fun a b : ℕ × α => a.1 < b.1) (List.enumFrom n l) := by
  induction l with
  | nil => intro n; simp
  | cons x t ih =>
    intro n
    rw [List.enumFrom_cons]
    refine List.Pairwise.cons ?_ (ih (n + 1))
    intro b hb
    have := le_fst_of_mem_enumFrom hb
    omega

/-- The filterMap body of `similarityScores` only returns pairs carrying the
enumerated index. -/
lemma similarityScores_shape {text : List Char}
    {ctx : String} {a : ℕ × Interaction} {p : ℕ × ℚ}
    (h : (fun p : ℕ × Interaction =>
      let pastLower := toLowerL p.2.input_text
      if p.2.context ≠ ctx then none
      else
        let pastWords := (pySplit pastLower).dedup
        let common := ((pySplit (toLowerL text)).dedup).filter
          fun w => pastWords.contains w
        if common.isEmpty then none
        else
          let sim : ℚ := (common.length : ℚ) /
            ((((pySplit (toLowerL text)).dedup ++ pastWords).dedup).length : ℚ)
          let sim := if toLowerL text = pastLower then 1 else sim
          some (p.1, sim)) a = some p) :
    p.1 = a.1 ∧ a.2.context = ctx ∧
    ((pySplit (toLowerL text)).dedup.filter
      (fun w => ((pySplit (toLowerL a.2.input_text)).dedup).contains w)) ≠ [] ∧
    0 < p.2 ∧ p.2 ≤ 1 := by
  dsimp only at h
  by_cases hctx : a.2.context ≠ ctx
  · rw [if_pos hctx] at h
    cases h
  · rw [if_neg hctx] at h
    set ws := (pySplit (toLowerL text)).dedup with hws
    set pws := (pySplit (toLowerL a.2.input_text)).dedup with hpws
    set common := ws.filter (fun w => pws.contains w) with hcommon
    by_cases hcom : common.isEmpty
    · rw [if_pos hcom] at h
      cases h
    · rw [if_neg hcom] at h
      have hcne : common ≠ [] := by
        intro hc
        rw [hc] at hcom
        exact hcom rfl
      obtain ⟨w0, hw0⟩ := List.exists_mem_of_ne_nil common hcne
      have hw0u : w0 ∈ (ws ++ pws).dedup := by
        rw [List.mem_dedup]
        exact List.mem_append_left _ (List.mem_filter.mp hw0).1
      have hupos : 0 < ((ws ++ pws).dedup).length := List.length_pos_of_mem hw0u
      have hcpos : 0 < common.length := List.length_pos_of_mem hw0
      have hsub : common.length ≤ ((ws ++ pws).dedup).length := by
        refine List.Subperm.length_le (List.Nodup.subperm ?_ ?_)
        · exact List.Nodup.filter _ (List.nodup_dedup _)
        · intro w hw
          rw [List.mem_dedup]
          exact List.mem_append_left _ (List.mem_filter.mp hw).1
      have hqpos : (0:ℚ) < ((ws ++ pws).dedup).length := by exact_mod_cast hupos
      injection h with h
      rw [← h]
      refine ⟨rfl, not_not.mp hctx, hcne, ?_, ?_⟩ <;> dsimp only <;>
        by_cases hex : toLowerL text = toLowerL a.2.input_text
      · rw [if_pos hex]
        norm_num
      · rw [if_neg hex]
        positivity
      · rw [if_pos hex]
      · rw [if_neg hex]
        rw [div_le_one hqpos]
        exact_mod_cast hsub

lemma mem_similarityScores {store : List Interaction} {text : List Char}
    {ctx : String} {p : ℕ × ℚ} (hp : p ∈ similarityScores store text ctx) :
    ∃ it, store.get? p.1 = some it ∧ it.context = ctx ∧
      ((pySplit (toLowerL text)).dedup.filter
        (fun w => ((pySplit (toLowerL it.input_text)).dedup).contains w)) ≠ [] ∧
      0 < p.2 ∧ p.2 ≤ 1 := by
  unfold similarityScores at hp
  rcases List.mem_filterMap.mp hp with ⟨a, ha, hfa⟩
  obtain ⟨h1, h2, h3, h4, h5⟩ := similarityScores_shape hfa
  refine ⟨a.2, ?_, h2, h3, h4, h5⟩
  rw [h1]
  exact List.mem_enum_iff_get?.mp ha

lemma similarityScores_index_lt (store : List Interaction) (text : List Char)
    (ctx : String) :
    List.Pairwise (fun a b : ℕ × ℚ => a.1 < b.1)
      (similarityScores store text ctx) := by
  unfold similarityScores
  refine List.Pairwise.filterMap _ ?_ (pairwise_fst_lt_enumFrom store 0)
  intro a a2 hR b hb b2 hb2
  have e1 := (similarityScores_shape hb).1
  have e2 := (similarityScores_shape hb2).1
  rw [e1, e2]
  exact hR

lemma insertByDesc_rank (z : ℕ × ℚ) (acc : List (ℕ × ℚ))
    (hpw : List.Pairwise simRank acc) (hidx : ∀ a ∈ acc, a.1 < z.1) :
    List.Pairwise simRank (insertByDesc (fun p : ℕ × ℚ => p.2) z acc) := by
  induction acc with
  | nil => simp [insertByDesc]
  | cons y ys ih =>
    rcases List.pairwise_cons.mp hpw with ⟨hy, hys⟩
    by_cases h : z.2 ≤ y.2
    · simp only [insertByDesc, if_pos h]
      refine List.pairwise_cons.mpr ⟨?_, ih hys
        (fun a ha => hidx a (List.mem_cons_of_mem _ ha))⟩
      intro b hb
      rcases List.mem_cons.mp ((insertByDesc_perm (fun p : ℕ × ℚ => p.2) z ys).mem_iff.mp hb) with
        rfl | hb2
      · rcases lt_or_eq_of_le h with hlt | heq
        · exact Or.inl hlt
        · exact Or.inr ⟨heq.symm, hidx y (List.mem_cons_self _ _)⟩
      · exact hy b hb2
    · simp only [insertByDesc, if_neg h]
      refine List.pairwise_cons.mpr ⟨?_, hpw⟩
      intro b hb
      rcases List.mem_cons.mp hb with rfl | hb2
      · exact Or.inl (lt_of_not_le h)
      · rcases hy b hb2 with hlt | ⟨heq, _⟩
        · exact Or.inl (lt_trans hlt (lt_of_not_le h))
        · exact Or.inl (heq ▸ lt_of_not_le h)

lemma sortDescBy_rank_aux :
    ∀ l2 : List (ℕ × ℚ), List.Pairwise (fun a b : ℕ × ℚ => a.1 < b.1) l2 →
      ∀ acc, List.Pairwise simRank acc →
      (∀ a ∈ acc, ∀ b ∈ l2, a.1 < b.1) →
      List.Pairwise simRank
        (l2.foldl (fun acc x => insertByDesc (fun p : ℕ × ℚ => p.2) x acc) acc) := by
  intro l2
  induction l2 with
  | nil => intro _ acc hacc _; exact hacc
  | cons z rest ih =>
    intro hpl acc hacc hcross
    obtain ⟨hz, hrest⟩ := List.pairwise_cons.mp hpl
    rw [List.foldl_cons]
    refine ih hrest _ ?_ ?_
    · exact insertByDesc_rank z acc hacc
        (fun a ha => hcross a ha z (List.mem_cons_self _ _))
    · intro a ha b hb
      rcases List.mem_cons.mp ((insertByDesc_perm (fun p : ℕ × ℚ => p.2) z acc).mem_iff.mp ha) with
        rfl | ha2
      · exact hz b hb
      · exact hcross a ha2 b (List.mem_cons_of_mem _ hb)

lemma sortDescBy_rank (l : List (ℕ × ℚ))
    (h : List.Pairwise (fun a b : ℕ × ℚ => a.1 < b.1) l) :
    List.Pairwise simRank (sortDescBy (fun p : ℕ × ℚ => p.2) l) :=
  sortDescBy_rank_aux l h [] (by simp) (by simp)

/-- An exact text/context match (with at least one query word) contributes a
similarity-1 pair to the score list. -/
lemma exact_match_score {store : List Interaction} {text : List Char}
    {ctx : String} {it : Interaction} (hit : it ∈ store)
    (htext : toLowerL it.input_text = toLowerL text) (hctx : it.context = ctx)
    (hw : pySplit (toLowerL text) ≠ []) :
    ∃ i, (i, (1:ℚ)) ∈ similarityScores store text ctx := by
  obtain ⟨i, hi⟩ := List.mem_iff_get?.mp hit
  refine ⟨i, ?_⟩
  unfold similarityScores
  refine List.mem_filterMap.mpr ⟨(i, it), List.mem_enum_iff_get?.mpr hi, ?_⟩
  dsimp only
  rw [if_neg (by simp [hctx]), htext]
  have hfil : ((pySplit (toLowerL text)).dedup).filter
      (fun w => ((pySplit (toLowerL text)).dedup).contains w) =
      (pySplit (toLowerL text)).dedup := by
    apply List.filter_eq_self.mpr
    intro w hwm
    exact List.contains_iff_exists_mem_beq.mpr ⟨w, hwm, by simp⟩
  rw [hfil]
  rw [if_neg (by
    intro hemp
    exact hw (by rwa [List.isEmpty_iff, List.dedup_eq_nil] at hemp))]
  rw [if_pos rfl]

/-- C6 counterexample: with an empty query text, an exact text/context match
exists in the store, yet `get_similar_interactions` returns nothing — the
zero-overlap discard runs before the exact-match boost, and an empty text
has no words. -/
theorem get_similar_exact_match_counterexample :
    (∃ it ∈ [(⟨0, [], [("happy", 1)], "friend", none⟩ : Interaction)],
      toLowerL it.input_text = toLowerL ([] : List Char) ∧ it.context = "friend") ∧
    get_similar_interactions [⟨0, [], [("happy", 1)], "friend", none⟩] []
      "friend" 3 = [] := by
  constructor
  · exact ⟨_, List.mem_cons_self _ _, rfl, rfl⟩
  · with_unfolding_all rfl

/-- C6 amended: `get_similar_interactions` returns at most `limit` results,
each drawn from the store with matching stored context and non-empty word
overlap; the underlying score pairs are ranked by similarity descending with
ties in store order, every similarity lies in (0, 1]; and whenever some
stored interaction's lowercased text equals the query's lowercased text with
matching context, **provided the query text contains at least one
whitespace-delimited word and `limit ≥ 1`**, the first returned score pair
has similarity exactly 1.0. -/
theorem get_similar_spec_amended (store : List Interaction) (text : List Char)
    (ctx : String) (limit : ℕ) :
    (get_similar_interactions store text ctx limit).length ≤ limit ∧
    (∀ it ∈ get_similar_interactions store text ctx limit,
      it ∈ store ∧ it.context = ctx ∧
      ((pySplit (toLowerL text)).dedup.filter
        (fun w => ((pySplit (toLowerL it.input_text)).dedup).contains w)) ≠ []) ∧
    List.Pairwise simRank
      ((sortDescBy (fun p : ℕ × ℚ => p.2)
        (similarityScores store text ctx)).take limit) ∧
    (∀ p ∈ similarityScores store text ctx, 0 < p.2 ∧ p.2 ≤ 1) ∧
    (1 ≤ limit → pySplit (toLowerL text) ≠ [] →
      (∃ it ∈ store, toLowerL it.input_text = toLowerL text ∧ it.context = ctx) →
      ∃ p, ((sortDescBy (fun p : ℕ × ℚ => p.2)
          (similarityScores store text ctx)).take limit).head? = some p ∧
        p.2 = 1) := by
  have hsorted := sortDescBy_rank (similarityScores store text ctx)
    (similarityScores_index_lt store text ctx)
  refine ⟨?_, ?_, ?_, ?_, ?_⟩
  · unfold get_similar_interactions
    by_cases hs : store.isEmpty
    · rw [if_pos hs]
      simp
    · rw [if_neg hs]
      refine le_trans (List.length_filterMap_le _ _) ?_
      exact List.length_take_le _ _
  · intro it hit
    unfold get_similar_interactions at hit
    by_cases hs : store.isEmpty
    · rw [if_pos hs] at hit
      cases hit
    · rw [if_neg hs] at hit
      rcases List.mem_filterMap.mp hit with ⟨p, hp, hget⟩
      have hpmem : p ∈ similarityScores store text ctx :=
        mem_sortDescBy.mp ((List.take_sublist _ _).subset hp)
      obtain ⟨it2, hget2, hc2, hover, _, _⟩ := mem_similarityScores hpmem
      rw [hget] at hget2
      cases hget2
      exact ⟨List.get?_mem hget, hc2, hover⟩
  · exact List.Pairwise.sublist (List.take_sublist _ _) hsorted
  · intro p hp
    obtain ⟨_, _, _, _, h4, h5⟩ := mem_similarityScores hp
    exact ⟨h4, h5⟩
  · rintro hlim hw ⟨it, hit, htext, hctx⟩
    obtain ⟨i, hmem⟩ := exact_match_score hit htext hctx hw
    have hmem2 : (i, (1:ℚ)) ∈ sortDescBy (fun p : ℕ × ℚ => p.2)
        (similarityScores store text ctx) := mem_sortDescBy.mpr hmem
    cases hsl : sortDescBy (fun p : ℕ × ℚ => p.2)
        (similarityScores store text ctx) with
    | nil =>
      rw [hsl] at hmem2
      cases hmem2
    | cons h0 t =>
      cases limit with
      | zero => omega
      | succ m =>
        refine ⟨h0, by rw [List.take_succ_cons]; rfl, ?_⟩
        have hh0 : h0 ∈ similarityScores store text ctx := by
          apply mem_sortDescBy.mp
          rw [hsl]
          exact List.mem_cons_self _ _
        have hle : h0.2 ≤ 1 := (mem_similarityScores hh0).choose_spec.2.2.2.2
        rw [hsl] at hmem2 hsorted
        rcases List.mem_cons.mp hmem2 with heq | hmem3
        · rw [← heq]
        · rcases (List.pairwise_cons.mp hsorted).1 _ hmem3 with hlt | ⟨heq2, _⟩
          · simp only at hlt
            linarith
          · exact heq2

/-- C6 amended witness: an exact match on a two-word query returns a head
score pair of similarity 1. -/
theorem get_similar_spec_amended_witness :
    (1:ℕ) ≤ 3 ∧ pySplit (toLowerL "hello world".toList) ≠ [] ∧
    ∃ p, ((sortDescBy (fun p : ℕ × ℚ => p.2)
        (similarityScores [⟨0, "hello world".toList, [("happy", 1)], "friend", none⟩]
          "hello world".toList "friend")).take 3).head? = some p ∧ p.2 = 1 := by
  refine ⟨by norm_num, by decide, ?_⟩
  exact (get_similar_spec_amended
    [⟨0, "hello world".toList, [("happy", 1)], "friend", none⟩]
    "hello world".toList "friend" 3).2.2.2.2 (by norm_num) (by decide)
    ⟨_, List.mem_cons_self _ _, rfl, rfl⟩

/-! ## Claim C7: interaction-store cap and FIFO eviction -/

lemma add_interaction_below_cap {store : List Interaction} (it : Interaction)
    (h : store.length ≤ 999) : add_interaction store it = store ++ [it] := by
  unfold add_interaction
  rw [if_neg]
  simp only [List.length_append, List.length_cons, List.length_nil]
  omega

lemma foldl_add_interaction_drop (recs : List Interaction) :
    ∀ store : List Interaction, store.length ≤ 1000 →
      recs.foldl add_interaction store =
        (store ++ recs).drop ((store ++ recs).length - 1000) := by
  induction recs with
  | nil =>
    intro store h
    simp [Nat.sub_eq_zero_of_le h]
  | cons r rs ih =>
    intro store h
    rw [List.foldl_cons]
    by_cases hc : store.length + 1 ≤ 1000
    · have he : add_interaction store r = store ++ [r] :=
        add_interaction_below_cap r (by omega)
      rw [he, ih (store ++ [r]) (by simp; omega)]
      simp [List.append_assoc]
    · have hlen : store.length = 1000 := by omega
      have he : add_interaction store r = (store ++ [r]).drop 1 := by
        unfold add_interaction
        rw [if_pos (by simp [hlen])]
        simp [hlen]
      have hsplit : (store ++ [r]).drop 1 ++ rs = ((store ++ [r]) ++ rs).drop 1 :=
        (List.drop_append_of_le_length (by simp)).symm
      have hlen2 : ((store ++ [r]).drop 1).length = 1000 := by simp [hlen]
      rw [he, ih _ (le_of_eq hlen2), hsplit, List.drop_drop, List.append_assoc,
        List.singleton_append]
      congr 1
      simp only [List.length_drop, List.length_append, List.length_cons]
      omega

/-- C7: after every `add_interaction` call the store holds at most 1000
records, the new record sits at the end, on overflow the oldest records are
evicted first (the result is a suffix of the appended store), appending
below the cap changes nothing else, and recording 1001 interactions into an
empty store leaves exactly the last 1000 (the first-recorded one evicted). -/
theorem interaction_store_fifo (store : List Interaction) (it : Interaction)
    (recs : List Interaction) :
    (add_interaction store it).length ≤ 1000 ∧
    (add_interaction store it).IsSuffix (store ++ [it]) ∧
    (add_interaction store it).getLast? = some it ∧
    (store.length ≤ 999 → add_interaction store it = store ++ [it]) ∧
    (recs.length = 1001 → recs.foldl add_interaction [] = recs.drop 1) := by
  refine ⟨?_, ?_, ?_, fun h => add_interaction_below_cap it h, fun h => ?_⟩
  · unfold add_interaction
    by_cases hc : 1000 < (store ++ [it]).length
    · rw [if_pos hc, List.length_drop]
      omega
    · rw [if_neg hc]
      omega
  · unfold add_interaction
    by_cases hc : 1000 < (store ++ [it]).length
    · rw [if_pos hc]
      exact List.drop_suffix _ _
    · rw [if_neg hc]
  · unfold add_interaction
    by_cases hc : 1000 < (store ++ [it]).length
    · rw [if_pos hc]
      have hk : (store ++ [it]).length - 1000 ≤ store.length := by
        simp only [List.length_append, List.length_cons, List.length_nil]
        omega
      rw [List.drop_append_of_le_length hk]
      exact List.getLast?_concat _
    · rw [if_neg hc]
      exact List.getLast?_concat _
  · have h0 := foldl_add_interaction_drop recs [] (by simp)
    rw [List.nil_append] at h0
    rw [h0, h]

/-- C7 witness: a concrete record list of length 1001 and a concrete
below-cap append. -/
theorem interaction_store_fifo_witness :
    (List.replicate 1001 (⟨0, [], [], "friend", none⟩ : Interaction)).length = 1001 ∧
    (List.replicate 1001 (⟨0, [], [], "friend", none⟩ : Interaction)).foldl
        (fun s r => add_interaction s r) [] =
      (List.replicate 1001 (⟨0, [], [], "friend", none⟩ : Interaction)).drop 1 ∧
    add_interaction [] (⟨0, [], [], "friend", none⟩ : Interaction) =
      [⟨0, [], [], "friend", none⟩] := by
  refine ⟨by simp, ?_, ?_⟩
  · exact (interaction_store_fifo [] (⟨0, [], [], "friend", none⟩ : Interaction)
      (List.replicate 1001 (⟨0, [], [], "friend", none⟩ : Interaction))).2.2.2.2 (by simp)
  · simpa using (interaction_store_fifo [] (⟨0, [], [], "friend", none⟩ : Interaction)
      []).2.2.2.1 (by simp)

/-! ## Claim C10: the composer always returns a non-empty mapping -/

lemma keysOf_keywordStage (kws : List (List Char)) (ctxType : String) (d : Dist) :
    keysOf (keywordStage kws ctxType d) = keysOf d := by
  unfold keywordStage
  refine keysOf_foldl _ _ ?_ d
  intro w d2
  split
  · exact keysOf_foldl _ _ (fun (ei : String × ℚ) d3 => keysOf_updAdd d3 ei.1 ei.2) d2
  · exact keysOf_foldl _ _ (fun (ei : String × ℚ) d3 => keysOf_updAdd d3 ei.1 ei.2) d2
  · rfl

lemma keysOf_contextWeightStage (ctxType : String) (conf : ℚ) (d : Dist) :
    keysOf (contextWeightStage ctxType conf d) = keysOf d := by
  unfold contextWeightStage
  split
  · exact keysOf_foldl _ _ (fun (ew : String × ℚ) d2 => keysOf_updMul d2 ew.1 _) d
  · rfl

lemma keysOf_clampStage (d : Dist) : keysOf (clampStage d) = keysOf d :=
  keysOf_mapSnd d _

lemma keysOf_mapMul (d : Dist) (s : ℚ) :
    keysOf (d.map fun kv => (kv.1, kv.2 * s)) = keysOf d :=
  keysOf_mapSnd d _

lemma keysOf_map_to_emotions_pre (sentiment : Scores) (features : Features)
    (input_text : List Char) (ctxType : String) (conf : ℚ) :
    keysOf (map_to_emotions_pre sentiment features input_text ctxType conf) =
      BASE_EMOTIONS := by
  simp only [map_to_emotions_pre]
  rw [keysOf_contextWeightStage, keysOf_keywordStage, keysOf_featureStage,
    keysOf_mapMul, keysOf_sentimentStage]
  by_cases ht : input_text.isEmpty
  · rw [if_pos ht]
    rfl
  · rw [if_neg ht, keysOf_patternStage, keysOf_phraseStage]
    rfl

lemma phraseStage_ge (textLower : List Char) (ctxType k : String) {conf : ℚ}
    (hconf : 0 ≤ conf) (d : Dist) :
    getD d k ≤ getD (phraseStage textLower ctxType conf d) k := by
  unfold phraseStage
  refine getD_foldl_ge_mem _ _ k ?_ d
  intro p hp d2
  simp only [EMOTION_PHRASES, List.mem_cons, List.not_mem_nil, or_false] at hp
  rcases hp with rfl | rfl | rfl | rfl | rfl | rfl | rfl | rfl | rfl | rfl <;>
    · dsimp only
      split_ifs <;>
        first
          | exact le_refl _
          | exact getD_updAdd_ge _ _ _ _ (mul_nonneg (by norm_num) hconf)

lemma patternStage_ge (textLower : List Char) (k : String) {conf : ℚ}
    (hconf : 0 ≤ conf) (d : Dist) :
    getD d k ≤ getD (patternStage textLower conf d) k := by
  unfold patternStage
  refine getD_foldl_ge_mem _ _ k ?_ d
  intro ep _ d2
  refine getD_foldl_ge_mem _ _ k ?_ d2
  intro pat _ d3
  by_cases hc : containsSub textLower pat
  · rw [if_pos hc]
    exact getD_updAdd_ge _ _ _ _ (mul_nonneg (by norm_num) hconf)
  · rw [if_neg hc]

lemma sentiPosBlock_ge (p : ℚ) (k : String) (e : Dist) :
    getD e k ≤ getD (if 0 < p then
      updAdd (updAdd (updAdd (updAdd (updAdd (updAdd e
        "Happy" (p * (5/10))) "Excited" (p * (25/100))) "Calm" (p * (15/100)))
        "Loving" (p * (2/10))) "Proud" (p * (15/100))) "Grateful" (p * (15/100))
    else e) k := by
  split_ifs with h
  · repeat first
      | exact le_refl _
      | refine le_trans ?_ (getD_updAdd_ge _ _ _ _ (by linarith))
  · exact le_refl _

lemma sentiNegBlock_ge (n : ℚ) (k : String) (e : Dist) :
    getD e k ≤ getD (if 0 < n then
      updAdd (updAdd (updAdd (updAdd e
        "Sad" (n * (4/10))) "Angry" (n * (3/10))) "Disgusted" (n * (2/10)))
        "Nervous" (n * (2/10))
    else e) k := by
  split_ifs with h
  · repeat first
      | exact le_refl _
      | refine le_trans ?_ (getD_updAdd_ge _ _ _ _ (by linarith))
  · exact le_refl _

lemma sentiHosBlock_ge (h : ℚ) (ctxType : String) (conf : ℚ) (k : String) (e : Dist) :
    getD e k ≤ getD (if 0 < h then
      if ctxType = "friend" then
        let cf := max (2/10) (1 - conf)
        let e1 := updAdd (updAdd (updAdd (updAdd e
          "Surprised" (h * (4/10))) "Curious" (h * (3/10))) "Excited" (h * (2/10)))
          "Amused" (h * (3/10))
        if 7/10 < h then updAdd (updAdd e1 "Confused" (h * (3/10))) "Afraid" (h * cf)
        else e1
      else if ctxType = "enemy" then
        let e1 := updAdd (updAdd (updAdd e
          "Afraid" (h * (5/10))) "Angry" (h * (3/10))) "Disgusted" (h * (2/10))
        if 8/10 < conf then updAdd e1 "Nervous" (h * (4/10)) else e1
      else
        updAdd (updAdd (updAdd (updAdd e
          "Surprised" (h * (3/10))) "Afraid" (h * (3/10))) "Curious" (h * (2/10)))
          "Confused" (h * (2/10))
    else e) k := by
  split_ifs with h1 h2 h3 h4 h5
  · refine le_trans ?_ (getD_updAdd_ge _ _ _ _ (by
      nlinarith [@le_sup_left ℚ _ ((2:ℚ)/10) (1 - conf)]))
    repeat first
      | exact le_refl _
      | refine le_trans ?_ (getD_updAdd_ge _ _ _ _ (by linarith))
  · repeat first
      | exact le_refl _
      | refine le_trans ?_ (getD_updAdd_ge _ _ _ _ (by linarith))
  · repeat first
      | exact le_refl _
      | refine le_trans ?_ (getD_updAdd_ge _ _ _ _ (by linarith))
  · repeat first
      | exact le_refl _
      | refine le_trans ?_ (getD_updAdd_ge _ _ _ _ (by linarith))
  · repeat first
      | exact le_refl _
      | refine le_trans ?_ (getD_updAdd_ge _ _ _ _ (by linarith))
  · exact le_refl _

lemma sentimentStage_ge (senti : Scores) (ctxType k : String) (conf : ℚ)
    (d : Dist) : getD d k ≤ getD (sentimentStage senti ctxType conf d) k := by
  unfold sentimentStage
  exact le_trans (sentiPosBlock_ge senti.positive k d)
    (le_trans (sentiNegBlock_ge senti.negative k _)
      (sentiHosBlock_ge senti.hostility ctxType conf k _))

lemma getD_foldl_updMul13_ge (l : List (String × ℚ)) (k : String) {x : ℚ}
    (hx : 0 ≤ x) : ∀ d, x ≤ getD d k →
      x ≤ getD (l.foldl (fun d kv => updMul d kv.1 (13/10)) d) k := by
  induction l with
  | nil => intro d h; exact h
  | cons kv t ih =>
    intro d h
    rw [List.foldl_cons]
    exact ih _ (getD_updMul_ge _ _ _ _ (by norm_num) hx h)

lemma featQBlock_ge (q : Bool) (k : String) {x : ℚ} (d : Dist)
    (h : x ≤ getD d k) :
    x ≤ getD (if q then updAdd (updAdd d "Curious" (3/10)) "Confused" (1/10)
              else d) k := by
  split_ifs
  · exact le_trans h (le_trans (getD_updAdd_ge _ _ _ _ (by norm_num))
      (getD_updAdd_ge _ _ _ _ (by norm_num)))
  · exact h

lemma featExBlock_ge (ex : Bool) (k : String) {x : ℚ} (hx : 0 ≤ x) (d : Dist)
    (h : x ≤ getD d k) :
    x ≤ getD (if ex then
        ((sortDescBy (fun kv : String × ℚ => kv.2) d).take 3).foldl
          (fun d kv => updMul d kv.1 (13/10)) d
      else d) k := by
  split_ifs
  · exact getD_foldl_updMul13_ge _ _ hx _ h
  · exact h

lemma featImpBlock_ge (imp : Bool) (ctxType k : String) {x : ℚ} (d : Dist)
    (h : x ≤ getD d k) :
    x ≤ getD (if imp then
        if ctxType = "friend" then updAdd d "Curious" (2/10)
        else if ctxType = "enemy" then
          updAdd (updAdd d "Angry" (2/10)) "Disgusted" (1/10)
        else d
      else d) k := by
  split_ifs
  · exact le_trans h (getD_updAdd_ge _ _ _ _ (by norm_num))
  · exact le_trans h (le_trans (getD_updAdd_ge _ _ _ _ (by norm_num))
      (getD_updAdd_ge _ _ _ _ (by norm_num)))
  · exact h
  · exact h

lemma featureStage_ge (features : Features) (ctxType k : String) {x : ℚ}
    (hx : 0 ≤ x) (d : Dist) (h : x ≤ getD d k) :
    x ≤ getD (featureStage features ctxType d) k := by
  unfold featureStage
  exact featImpBlock_ge _ _ _ _ (featExBlock_ge _ _ hx _ (featQBlock_ge _ _ _ h))

lemma keywordStage_ge (kws : List (List Char)) (ctxType k : String) (d : Dist) :
    getD d k ≤ getD (keywordStage kws ctxType d) k := by
  unfold keywordStage
  refine getD_foldl_ge_mem _ _ k ?_ d
  intro w _ d2
  cases hf : keywordEmotionMap.find? fun kv => kv.1 == w with
  | none => exact le_refl _
  | some kv =>
    have hmem : kv ∈ keywordEmotionMap := List.mem_of_find?_eq_some hf
    simp only [keywordEmotionMap, List.mem_cons, List.not_mem_nil, or_false] at hmem
    rcases hmem with rfl | rfl | rfl | rfl | rfl | rfl | rfl | rfl | rfl | rfl |
      rfl | rfl | rfl | rfl | rfl | rfl | rfl | rfl | rfl | rfl |
      rfl | rfl | rfl | rfl | rfl | rfl | rfl | rfl | rfl | rfl <;>
      exact getD_foldl_updAdd_ge _ _ (by
        first
          | (norm_num [List.forall_mem_cons]; done)
          | (by_cases hc : ctxType ≠ "friend"
             · norm_num [List.forall_mem_cons, hc]
             · norm_num [List.forall_mem_cons, hc])) d2

lemma contextWeightStage_sad (ctxType : String) (conf : ℚ) (d : Dist) :
    getD (contextWeightStage ctxType conf d) "Sad" = getD d "Sad" := by
  unfold contextWeightStage
  cases hf : CONTEXT_WEIGHTS.find? fun kv => kv.1 == ctxType with
  | none => rfl
  | some kv =>
    have hmem : kv ∈ CONTEXT_WEIGHTS := List.mem_of_find?_eq_some hf
    simp only [CONTEXT_WEIGHTS, List.mem_cons, List.not_mem_nil, or_false] at hmem
    rcases hmem with rfl | rfl | rfl <;>
      exact getD_foldl_updMul_ne _ _ _ (by decide) d

lemma getD_le_sumVals {d : Dist} (h0 : ∀ kv ∈ d, 0 ≤ kv.2) {k : String}
    (hk : k ∈ keysOf d) : getD d k ≤ sumVals d := by
  induction d with
  | nil => simp [keysOf] at hk
  | cons kv t ih =>
    rw [sumVals_cons, getD_cons]
    by_cases he : kv.1 = k
    · rw [if_pos he]
      have h2 : 0 ≤ sumVals t :=
        sumVals_nonneg fun kv2 h2 => h0 kv2 (List.mem_cons_of_mem _ h2)
      linarith
    · rw [if_neg he]
      have hk2 : k ∈ keysOf t := by
        simp only [keysOf, List.map_cons, List.mem_cons] at hk
        rcases hk with h1 | h1
        · exact absurd h1.symm he
        · simpa [keysOf] using h1
      have h1 : 0 ≤ kv.2 := h0 kv (List.mem_cons_self _ _)
      have h3 := ih (fun kv2 h2 => h0 kv2 (List.mem_cons_of_mem _ h2)) hk2
      linarith

lemma sumVals_lt_of_forall_lt {d : Dist} (hne : d ≠ []) {c : ℚ}
    (hall : ∀ kv ∈ d, kv.2 < c) : sumVals d < c * d.length := by
  induction d with
  | nil => exact absurd rfl hne
  | cons kv t ih =>
    rw [sumVals_cons, List.length_cons]
    have h2 := hall kv (List.mem_cons_self _ _)
    by_cases ht : t = []
    · subst ht
      simp only [sumVals, List.map_nil, List.sum_nil, List.length_nil]
      push_cast
      linarith
    · have h1 := ih ht (fun kv2 hk2 => hall kv2 (List.mem_cons_of_mem _ hk2))
      push_cast
      push_cast at h1
      nlinarith

lemma normalizeIfPos_ne_nil {d : Dist} (h : d ≠ []) : normalizeIfPos d ≠ [] := by
  unfold normalizeIfPos
  split_ifs
  · simpa using h
  · exact h

lemma getD_pre_sad (sentiment : Scores) (features : Features)
    (input_text : List Char) (ctxType : String) {conf : ℚ} (hconf : 0 ≤ conf)
    (hint : 0 ≤ sentiment.intensity) :
    1/40 ≤ getD (map_to_emotions_pre sentiment features input_text ctxType conf)
      "Sad" := by
  simp only [map_to_emotions_pre]
  rw [contextWeightStage_sad]
  refine le_trans ?_ (keywordStage_ge _ _ _ _)
  refine featureStage_ge _ _ _ (by norm_num) _ ?_
  rw [getD_mapMul]
  have hbase : getD (BASE_EMOTIONS.map fun e => (e, (5:ℚ)/100)) "Sad" = 5/100 := by
    with_unfolding_all rfl
  have hPP : (5:ℚ)/100 ≤ getD (if input_text.isEmpty then
        BASE_EMOTIONS.map fun e => (e, (5:ℚ)/100)
      else patternStage (toLowerL input_text) conf
        (phraseStage (toLowerL input_text) ctxType conf
          (BASE_EMOTIONS.map fun e => (e, (5:ℚ)/100)))) "Sad" := by
    split_ifs
    · exact le_of_eq hbase.symm
    · refine le_trans ?_ (patternStage_ge _ _ hconf _)
      refine le_trans ?_ (phraseStage_ge _ _ _ hconf _)
      exact le_of_eq hbase.symm
  have hS := le_trans hPP (sentimentStage_ge sentiment ctxType "Sad" conf _)
  have hscale : (1:ℚ)/2 ≤ 5/10 + sentiment.intensity / 2 := by linarith
  have h0g : (0:ℚ) ≤ getD (sentimentStage sentiment ctxType conf
      (if input_text.isEmpty then BASE_EMOTIONS.map fun e => (e, (5:ℚ)/100)
       else patternStage (toLowerL input_text) conf
         (phraseStage (toLowerL input_text) ctxType conf
           (BASE_EMOTIONS.map fun e => (e, (5:ℚ)/100))))) "Sad" :=
    le_trans (by norm_num) hS
  nlinarith [mul_le_mul hS hscale (by norm_num : (0:ℚ) ≤ 1/2) h0g]

/-- C10 counterexample: with a sentiment whose intensity is −1 (which the
claim's quantifier "any sentiment score" admits), the global scale factor
`0.5 + intensity/2` is 0, every emotion value is scaled to 0, the 0.06
filter drops all 15 entries and `map_to_emotions` returns the empty dict,
so `dominant_emotion` is `None`. -/
theorem map_to_emotions_nonempty_counterexample :
    (0:ℚ) ≤ 1/2 ∧
    map_to_emotions ⟨0, 0, 0, 0, -1⟩ ⟨false, false, false, []⟩ [] "unknown"
      (1/2) = [] ∧
    dominant_emotion (map_to_emotions ⟨0, 0, 0, 0, -1⟩ ⟨false, false, false, []⟩
      [] "unknown" (1/2)) = none := by
  refine ⟨by norm_num, ?_, ?_⟩
  · with_unfolding_all rfl
  · with_unfolding_all rfl

/-- C10 (amended): for every feature set, input text and context type, if the
context confidence is non-negative and the sentiment's intensity is
non-negative (the scorer only produces intensities in [0, 1]), then
`map_to_emotions` returns a non-empty mapping and the response field
`dominant_emotion = next(iter(emotions), None)` is never `None`.  Without
the intensity hypothesis the property fails
(`map_to_emotions_nonempty_counterexample`). -/
theorem map_to_emotions_nonempty (sentiment : Scores) (features : Features)
    (input_text : List Char) (ctxType : String) (conf : ℚ)
    (hconf : 0 ≤ conf) (hint : 0 ≤ sentiment.intensity) :
    map_to_emotions sentiment features input_text ctxType conf ≠ [] ∧
      dominant_emotion (map_to_emotions sentiment features input_text ctxType
        conf) ≠ none := by
  have hSadPre := getD_pre_sad sentiment features input_text ctxType hconf hint
  have hCnn := clampStage_nonneg
    (map_to_emotions_pre sentiment features input_text ctxType conf)
  have hSadC : (1:ℚ)/40 ≤ getD (clampStage (map_to_emotions_pre sentiment
      features input_text ctxType conf)) "Sad" := by
    rw [getD_clampStage]
    exact le_min (le_trans hSadPre (le_max_left _ _)) (by norm_num)
  have hSadMem : "Sad" ∈ keysOf (clampStage (map_to_emotions_pre sentiment
      features input_text ctxType conf)) := by
    rw [keysOf_clampStage, keysOf_map_to_emotions_pre]
    simp [BASE_EMOTIONS]
  have hsum_pos : 0 < sumVals (clampStage (map_to_emotions_pre sentiment
      features input_text ctxType conf)) :=
    lt_of_lt_of_le (by norm_num) (le_trans hSadC (getD_le_sumVals hCnn hSadMem))
  have hlenPre : (map_to_emotions_pre sentiment features input_text ctxType
      conf).length = 15 := by
    have h15 := congrArg List.length
      (keysOf_map_to_emotions_pre sentiment features input_text ctxType conf)
    simpa [keysOf, BASE_EMOTIONS] using h15
  have hn1 : sumVals (normalizeIfPos (clampStage (map_to_emotions_pre sentiment
      features input_text ctxType conf))) = 1 :=
    sumVals_normalizeIfPos_of_pos hsum_pos
  have hlenN : (normalizeIfPos (clampStage (map_to_emotions_pre sentiment
      features input_text ctxType conf))).length = 15 := by
    rw [normalizeIfPos_of_pos hsum_pos, List.length_map]
    simp only [clampStage, List.length_map, hlenPre]
  have hex : ∃ kv ∈ normalizeIfPos (clampStage (map_to_emotions_pre sentiment
      features input_text ctxType conf)), (6:ℚ)/100 ≤ kv.2 := by
    by_contra hcon
    push_neg at hcon
    have hne : normalizeIfPos (clampStage (map_to_emotions_pre sentiment
        features input_text ctxType conf)) ≠ [] := by
      intro h0
      rw [h0] at hlenN
      simp at hlenN
    have hlt := sumVals_lt_of_forall_lt hne hcon
    rw [hn1, hlenN] at hlt
    norm_num at hlt
  obtain ⟨kv, hkvmem, hkv⟩ := hex
  have hfne : filterGE (6/100) (normalizeIfPos (clampStage (map_to_emotions_pre
      sentiment features input_text ctxType conf))) ≠ [] :=
    List.ne_nil_of_mem (mem_filterGE.mpr ⟨hkvmem, hkv⟩)
  have hkey : map_to_emotions sentiment features input_text ctxType conf ≠ [] := by
    simp only [map_to_emotions]
    rw [Ne, sortDescBy_eq_nil_iff]
    exact normalizeIfPos_ne_nil hfne
  refine ⟨hkey, ?_⟩
  cases hm : map_to_emotions sentiment features input_text ctxType conf with
  | nil => exact absurd hm hkey
  | cons kv2 t => simp [dominant_emotion]

/-- C10 witness: a neutral sentiment with intensity 0, no features, empty
text and an unknown context already yield a non-empty emotion dict and a
dominant emotion. -/
theorem map_to_emotions_nonempty_witness :
    (0:ℚ) ≤ 1/2 ∧ (0:ℚ) ≤ (⟨0, 0, 1, 0, 0⟩ : Scores).intensity ∧
    map_to_emotions ⟨0, 0, 1, 0, 0⟩ ⟨false, false, false, []⟩ [] "unknown"
      (1/2) ≠ [] ∧
    dominant_emotion (map_to_emotions ⟨0, 0, 1, 0, 0⟩ ⟨false, false, false, []⟩
      [] "unknown" (1/2)) ≠ none :=
  ⟨by norm_num, by norm_num,
    (map_to_emotions_nonempty ⟨0, 0, 1, 0, 0⟩ ⟨false, false, false, []⟩ []
      "unknown" (1/2) (by norm_num) (by norm_num)).1,
    (map_to_emotions_nonempty ⟨0, 0, 1, 0, 0⟩ ⟨false, false, false, []⟩ []
      "unknown" (1/2) (by norm_num) (by norm_num)).2⟩

/-! ## Claim C3: letter-free text infrastructure -/

lemma uint32_le_iff (a b : UInt32) : a ≤ b ↔ a.toNat ≤ b.toNat := Iff.rfl

lemma toLower_eq_self_of_not_alpha {c : Char} (h : c.isAlpha = false) :
    c.toLower = c := by
  unfold Char.toLower
  rw [if_neg]
  simp only [Char.isAlpha, Char.isUpper, Char.isLower, Bool.or_eq_false_iff,
    Bool.and_eq_false_iff, decide_eq_false_iff_not] at h
  intro hc
  obtain ⟨h1, h2⟩ := hc
  rcases h.1 with h3 | h3
  · exact h3 ((uint32_le_iff _ _).mpr h1)
  · exact h3 ((uint32_le_iff _ _).mpr h2)

lemma isAlpha_toLower {c : Char} (h : c.isAlpha = false) :
    c.toLower.isAlpha = false := by
  rw [toLower_eq_self_of_not_alpha h]
  exact h

lemma letterFree_toLowerL {s : List Char} (h : letterFree s = true) :
    letterFree (toLowerL s) = true := by
  simp only [letterFree, toLowerL, List.all_eq_true, List.mem_map] at h ⊢
  rintro c ⟨c0, hc0, rfl⟩
  have := h c0 hc0
  simp only [Bool.not_eq_true'] at this ⊢
  exact isAlpha_toLower this

lemma hasAlpha_not_letterFree {w : List Char} (ha : w.any Char.isAlpha = true)
    (hf : letterFree w = true) : False := by
  simp only [List.any_eq_true] at ha
  simp only [letterFree, List.all_eq_true] at hf
  obtain ⟨c, hc, hca⟩ := ha
  have := hf c hc
  rw [hca] at this
  exact absurd this (by decide)

lemma containsSub_letterFree {hay pat : List Char} (hhay : letterFree hay = true)
    (hpat : pat.any Char.isAlpha = true) : containsSub hay pat = false := by
  induction hay with
  | nil =>
    unfold containsSub
    cases pat with
    | nil => simp at hpat
    | cons c t => rfl
  | cons c t ih =>
    unfold containsSub
    simp only [letterFree, List.all_cons, Bool.and_eq_true] at hhay
    rw [ih (by simp [letterFree, hhay.2])]
    simp only [Bool.or_false]
    by_cases hp : pat.isPrefixOf (c :: t) = true
    · exfalso
      have hpre : pat <+: c :: t := List.isPrefixOf_iff_prefix.mp hp
      simp only [List.any_eq_true] at hpat
      obtain ⟨a, ha, haa⟩ := hpat
      have hmem : a ∈ c :: t := hpre.subset ha
      have hall : letterFree (c :: t) = true := by
        simp [letterFree, List.all_cons, hhay.1, hhay.2]
      simp only [letterFree, List.all_eq_true] at hall
      have := hall a hmem
      rw [haa] at this
      exact absurd this (by decide)
    · simp only [Bool.not_eq_true] at hp
      exact hp

lemma lexLookup_letterFree {lex : List (List Char × ℚ)}
    (hlex : ∀ kv ∈ lex, kv.1.any Char.isAlpha = true) {w : List Char}
    (hw : letterFree w = true) : lexLookup lex w = none := by
  unfold lexLookup
  rw [List.find?_eq_none.mpr]
  · rfl
  · intro kv hkv
    simp only [Bool.not_eq_true, beq_eq_false_iff_ne, Ne]
    intro heq
    exact hasAlpha_not_letterFree (heq ▸ hlex kv hkv) hw

lemma positiveLexicon_alpha : ∀ kv ∈ positiveLexicon, kv.1.any Char.isAlpha = true := by
  decide

lemma negativeLexicon_alpha : ∀ kv ∈ negativeLexicon, kv.1.any Char.isAlpha = true := by
  decide

lemma hostileLexicon_alpha : ∀ kv ∈ hostileLexicon, kv.1.any Char.isAlpha = true := by
  decide

lemma intensifiers_alpha : ∀ kv ∈ intensifiers, kv.1.any Char.isAlpha = true := by
  decide

lemma diminishers_alpha : ∀ kv ∈ diminishers, kv.1.any Char.isAlpha = true := by
  decide

lemma clampNonneg_zero : clampNonneg ⟨0, 0, 0, 0, 0⟩ = ⟨0, 0, 0, 0, 0⟩ := by
  simp [clampNonneg]

lemma psw_letterFree_zero {w : List Char} (hw : letterFree w = true)
    (b : Bool) (m : ℚ) :
    process_sentiment_word w b m ⟨0, 0, 0, 0, 0⟩ = ⟨0, 0, 0, 0, 0⟩ := by
  unfold process_sentiment_word
  simp only [sentLexicons, List.foldl_cons, List.foldl_nil,
    lexLookup_letterFree positiveLexicon_alpha hw,
    lexLookup_letterFree negativeLexicon_alpha hw,
    lexLookup_letterFree hostileLexicon_alpha hw]
  exact clampNonneg_zero

lemma foldl_fix {α β : Type} (f : α → β → α) (l : List β) (s : α)
    (h : ∀ b ∈ l, f s b = s) : l.foldl f s = s := by
  induction l with
  | nil => rfl
  | cons b t ih =>
    rw [List.foldl_cons, h b (List.mem_cons_self _ _)]
    exact ih fun b2 hb2 => h b2 (List.mem_cons_of_mem _ hb2)

lemma phraseCorrectionPass_letterFree {textLower : List Char}
    (hlf : letterFree textLower = true) (s : Scores) :
    phraseCorrectionPass textLower s = s := by
  unfold phraseCorrectionPass
  refine foldl_fix _ _ _ ?_
  intro tl htl
  refine foldl_fix _ _ _ ?_
  intro kv hkv
  refine foldl_fix _ _ _ ?_
  intro pre hpre
  rw [if_neg]
  rw [containsSub_letterFree hlf]
  · simp
  · have halpha : kv.1.any Char.isAlpha = true := by
      simp only [sentLexicons, List.mem_cons, List.not_mem_nil, or_false] at htl
      rcases htl with rfl | rfl | rfl
      · exact positiveLexicon_alpha kv hkv
      · exact negativeLexicon_alpha kv hkv
      · exact hostileLexicon_alpha kv hkv
    simp [List.any_append, halpha]
lemma loopStep_zero (doc : List Token) (hasNeg : Bool) (i : ℕ) (st : LoopSt)
    (hlem : ∀ t ∈ doc, letterFree t.lemma_ = true)
    (h : st.scores = ⟨0, 0, 0, 0, 0⟩) :
    (loopStep doc hasNeg i st).scores = ⟨0, 0, 0, 0, 0⟩ := by
  unfold loopStep
  dsimp only
  repeat' split
  all_goals try exact h
  all_goals
    exact (congrArg (process_sentiment_word _ _ _) h).trans
      (psw_letterFree_zero
        (letterFree_toLowerL (hlem _ (List.get?_mem (by assumption)))) _ _)

lemma mainLoop_zero (doc : List Token) (hasNeg : Bool)
    (hlem : ∀ t ∈ doc, letterFree t.lemma_ = true) :
    ∀ (fuel i : ℕ) (st : LoopSt), st.scores = ⟨0, 0, 0, 0, 0⟩ →
      (mainLoop doc hasNeg fuel i st).scores = ⟨0, 0, 0, 0, 0⟩ := by
  intro fuel
  induction fuel with
  | zero => intro i st h; exact h
  | succ f ih =>
    intro i st h
    unfold mainLoop
    split
    · exact ih _ _ (loopStep_zero doc hasNeg i st hlem h)
    · exact h
lemma process_sentiment_word_nonneg (w : List Char) (b : Bool) (m : ℚ)
    (s : Scores) :
    0 ≤ (process_sentiment_word w b m s).positive ∧
    0 ≤ (process_sentiment_word w b m s).negative ∧
    0 ≤ (process_sentiment_word w b m s).hostility := by
  unfold process_sentiment_word clampNonneg
  exact ⟨le_max_left _ _, le_max_left _ _, le_max_left _ _⟩

lemma loopStep_nonneg (doc : List Token) (hasNeg : Bool) (i : ℕ) (st : LoopSt)
    (h : 0 ≤ st.scores.positive ∧ 0 ≤ st.scores.negative ∧
      0 ≤ st.scores.hostility) :
    0 ≤ (loopStep doc hasNeg i st).scores.positive ∧
    0 ≤ (loopStep doc hasNeg i st).scores.negative ∧
    0 ≤ (loopStep doc hasNeg i st).scores.hostility := by
  unfold loopStep
  dsimp only
  repeat' split
  all_goals try exact h
  all_goals exact process_sentiment_word_nonneg _ _ _ _

lemma mainLoop_nonneg (doc : List Token) (hasNeg : Bool) :
    ∀ (fuel i : ℕ) (st : LoopSt),
      (0 ≤ st.scores.positive ∧ 0 ≤ st.scores.negative ∧
        0 ≤ st.scores.hostility) →
      0 ≤ (mainLoop doc hasNeg fuel i st).scores.positive ∧
      0 ≤ (mainLoop doc hasNeg fuel i st).scores.negative ∧
      0 ≤ (mainLoop doc hasNeg fuel i st).scores.hostility := by
  intro fuel
  induction fuel with
  | zero => intro i st h; exact h
  | succ f ih =>
    intro i st h
    unfold mainLoop
    split
    · exact ih _ _ (loopStep_nonneg doc hasNeg i st h)
    · exact h

lemma sentLexicons_wt_nonneg :
    ∀ tl ∈ sentLexicons, ∀ kv ∈ tl.2, (0:ℚ) ≤ kv.2 := by
  intro tl htl
  simp only [sentLexicons, List.mem_cons, List.not_mem_nil, or_false] at htl
  rcases htl with rfl | rfl | rfl <;>
    norm_num [positiveLexicon, negativeLexicon, hostileLexicon,
      List.forall_mem_cons]

lemma negatedPatternUpdate_nonneg (t : SentType) {w : ℚ} (hw : 0 ≤ w)
    {s : Scores} (h : 0 ≤ s.positive ∧ 0 ≤ s.negative ∧ 0 ≤ s.hostility) :
    0 ≤ (negatedPatternUpdate t w s).positive ∧
    0 ≤ (negatedPatternUpdate t w s).negative ∧
    0 ≤ (negatedPatternUpdate t w s).hostility := by
  cases t with
  | pos =>
    exact ⟨le_max_left _ _,
      add_nonneg h.2.1 (mul_nonneg hw (by norm_num)), h.2.2⟩
  | neg => exact ⟨add_nonneg h.1 hw, le_max_left _ _, h.2.2⟩
  | hos => exact ⟨h.1, h.2.1, le_max_left _ _⟩

lemma foldl_pres {α β : Type} (P : α → Prop) (f : α → β → α) :
    ∀ (l : List β) (a : α), P a → (∀ b ∈ l, ∀ x, P x → P (f x b)) →
      P (l.foldl f a) := by
  intro l
  induction l with
  | nil => intro a ha _; exact ha
  | cons b t ih =>
    intro a ha hstep
    rw [List.foldl_cons]
    exact ih _ (hstep b (List.mem_cons_self _ _) a ha)
      (fun b2 hb2 => hstep b2 (List.mem_cons_of_mem _ hb2))

lemma phraseCorrectionPass_nonneg (textLower : List Char) {s : Scores}
    (h : 0 ≤ s.positive ∧ 0 ≤ s.negative ∧ 0 ≤ s.hostility) :
    0 ≤ (phraseCorrectionPass textLower s).positive ∧
    0 ≤ (phraseCorrectionPass textLower s).negative ∧
    0 ≤ (phraseCorrectionPass textLower s).hostility := by
  unfold phraseCorrectionPass
  refine foldl_pres
    (fun x : Scores => 0 ≤ x.positive ∧ 0 ≤ x.negative ∧ 0 ≤ x.hostility)
    _ _ _ h ?_
  intro tl htl x hx
  refine foldl_pres
    (fun x : Scores => 0 ≤ x.positive ∧ 0 ≤ x.negative ∧ 0 ≤ x.hostility)
    _ _ _ hx ?_
  intro kv hkv y hy
  refine foldl_pres
    (fun x : Scores => 0 ≤ x.positive ∧ 0 ≤ x.negative ∧ 0 ≤ x.hostility)
    _ _ _ hy ?_
  intro pre _ z hz
  split_ifs
  · exact negatedPatternUpdate_nonneg tl.1 (sentLexicons_wt_nonneg tl htl kv hkv) hz
  · exact hz

lemma scoreInvariant_branches (s1 : Scores) (tw : ℕ)
    (hp : 0 ≤ s1.positive) (hn : 0 ≤ s1.negative) (hh : 0 ≤ s1.hostility)
    (hz : tw = 0 → s1 = ⟨0, 0, 0, 0, 0⟩) :
    scoreInvariant (if 0 < tw then
        clampUB1 { s1 with
          neutral := max 0 (1 - (s1.positive + s1.negative)),
          intensity := min 1 ((s1.positive + s1.negative) + s1.hostility) }
      else { s1 with
          neutral := max 0 (1 - (s1.positive + s1.negative)),
          intensity := min 1 ((s1.positive + s1.negative) + s1.hostility) }) := by
  split_ifs with htw
  · unfold scoreInvariant clampUB1
    dsimp only
    refine ⟨⟨?_, ?_⟩, ⟨?_, ?_⟩, ⟨?_, ?_⟩, ⟨?_, ?_⟩, ⟨?_, ?_⟩, ?_, ?_⟩ <;>
      (simp only [min_def, max_def]; split_ifs <;> linarith)
  · have h0 := hz (Nat.eq_zero_of_not_pos htw)
    subst h0
    unfold scoreInvariant
    norm_num

/-- C3: for every token sequence (with the spaCy well-formedness facts that
punctuation/space tokens and trailing whitespace carry no alphabetic
characters), the returned SentimentScore has every field in [0, 1],
`neutral = max(0, 1 - positive - negative)` and
`intensity = min(1, positive + negative + hostility)` over the returned
(clamped) field values. -/
theorem sentiment_score_invariant (doc : List Token)
    (hwf : ∀ t ∈ doc, (t.is_punct = true ∨ t.is_space = true) →
      letterFree t.text = true ∧ letterFree t.lemma_ = true)
    (hws : ∀ t ∈ doc, letterFree t.ws = true) :
    scoreInvariant (analyze_sentiment_enhanced doc) := by
  unfold analyze_sentiment_enhanced
  by_cases h0 : doc.length = 0
  · rw [if_pos h0]
    unfold scoreInvariant
    norm_num
  · rw [if_neg h0]
    dsimp only
    have hmain := mainLoop_nonneg doc
      (hasNegationPhrases (toLowerL (docText doc))) doc.length 0
      ⟨⟨0, 0, 0, 0, 0⟩, false, 0, []⟩ (by norm_num)
    refine scoreInvariant_branches _ (totalWords doc) ?_ ?_ ?_ ?_
    case _ =>
      split_ifs with hneg
      · exact (phraseCorrectionPass_nonneg _ hmain).1
      · exact hmain.1
    case _ =>
      split_ifs with hneg
      · exact (phraseCorrectionPass_nonneg _ hmain).2.1
      · exact hmain.2.1
    case _ =>
      split_ifs with hneg
      · exact (phraseCorrectionPass_nonneg _ hmain).2.2
      · exact hmain.2.2
    case _ =>
      intro htw0
      have hall : ∀ t ∈ doc, t.is_punct = true ∨ t.is_space = true := by
        intro t ht
        have hfe := List.length_eq_zero.mp htw0
        have := List.filter_eq_nil_iff.mp hfe t ht
        simp only [Bool.and_eq_true, Bool.not_eq_true', not_and_or] at this
        rcases this with h1 | h1
        · exact Or.inl (by simpa using h1)
        · exact Or.inr (by simpa using h1)
      have hlem : ∀ t ∈ doc, letterFree t.lemma_ = true :=
        fun t ht => (hwf t ht (hall t ht)).2
      have htext : letterFree (toLowerL (docText doc)) = true := by
        refine letterFree_toLowerL ?_
        simp only [docText, letterFree, List.all_eq_true, List.mem_flatten]
        rintro c ⟨l, hl, hc⟩
        rcases List.mem_map.mp hl with ⟨t, ht, rfl⟩
        rcases List.mem_append.mp hc with hc1 | hc1
        · have := (hwf t ht (hall t ht)).1
          simp only [letterFree, List.all_eq_true] at this
          exact this c hc1
        · have := hws t ht
          simp only [letterFree, List.all_eq_true] at this
          exact this c hc1
      have hsl := mainLoop_zero doc (hasNegationPhrases (toLowerL (docText doc)))
        hlem doc.length 0 ⟨⟨0, 0, 0, 0, 0⟩, false, 0, []⟩ rfl
      split_ifs with hneg
      · rw [hsl]
        exact phraseCorrectionPass_letterFree htext _
      · exact hsl
/-- C3 witness: the single-token document «hate» satisfies the
well-formedness hypotheses and the returned score satisfies the invariant. -/
theorem sentiment_score_invariant_witness :
    (∀ t ∈ [(⟨"hate".toList, "hate".toList, [], false, false⟩ : Token)],
        (t.is_punct = true ∨ t.is_space = true) →
          letterFree t.text = true ∧ letterFree t.lemma_ = true) ∧
    (∀ t ∈ [(⟨"hate".toList, "hate".toList, [], false, false⟩ : Token)],
        letterFree t.ws = true) ∧
    scoreInvariant (analyze_sentiment_enhanced
      [⟨"hate".toList, "hate".toList, [], false, false⟩]) :=
  ⟨by decide, by decide,
    sentiment_score_invariant _ (by decide) (by decide)⟩
end EmoCalc
